import Mathlib

/-!
Semana_14: the in-memory people / projects / tasks service (`src/server.js`).

A shallow embedding of the fifteen Express handlers of `server.js`.

* A collection (`people`, `projects`, `tasks`) is a `List` of records, in stored order.
* A handler is a function from the collection before the request, the path parameter
  `req.params.id` (a string) and the parsed body `req.body` to the response and the
  collection after the request.
* Record ids are server-assigned JavaScript numbers that start at the seeded integers and
  grow by `+ 1`; they are embedded as `Int` (exact integer arithmetic, which is what
  JavaScript numbers give below `2 ^ 53`).
* Every other field of a record holds whatever JavaScript value the body supplied, so
  fields are `JSValue`s.
* `req.params.id` reaches the handlers as a string; `parseInt` and the `ToNumber`
  conversion behind `==` are embedded as functions on that string. `ToNumber` gives the
  double nearest to the literal's value (doubles are the rationals `roundToDouble`
  returns); `parseInt` gives the integer read, exact as ids are.
* The module state is a `Store` of the three collections. Each handler is embedded twice:
  on its own collection (`peopleGet`, ...), where the per-collection claims are proved, and
  on the whole state (`storePeopleGet`, ...), as the closure in the source sees it; the
  `store..._eq` lemmas prove that the two agree.
-/

namespace Semana14

/-! ## JavaScript values -/

/-- Values found in a body parsed by `express.json()`, together with `undefined`, which is
what reading an absent property gives. Finite numbers are embedded in `ℚ`. -/
inductive JSValue where
  | undefined : JSValue
  | null : JSValue
  | bool (b : Bool) : JSValue
  | number (q : ℚ) : JSValue
  | string (s : String) : JSValue
  | array (items : List JSValue) : JSValue
  | object (fields : List (String × JSValue)) : JSValue

/-- JavaScript `ToBoolean`: `undefined`, `null`, `false`, `0` and `""` are falsy, every
other value (arrays and objects included) is truthy. -/
def JSValue.truthy : JSValue → Bool
  | .undefined => false
  | .null => false
  | .bool b => b
  | .number q => decide (q ≠ 0)
  | .string s => decide (s ≠ "")
  | .array _ => true
  | .object _ => true

/-- The parsed request body `req.body`: an object, as its list of own properties. -/
abbrev Body := List (String × JSValue)

/-- Reading a property of the body, as the destructuring `const { k } = req.body` does:
the property's value, or `undefined` when the body has no such property. -/
def Body.field (body : Body) (key : String) : JSValue :=
  (body.lookup key).getD JSValue.undefined

/-! ## The two string-to-number conversions the handlers use -/

/-- ECMAScript `StrWhiteSpaceChar`: white space and line terminators. -/
def isStrWhiteSpaceChar (c : Char) : Bool :=
  let n := c.toNat
  n == 0x09 || n == 0x0A || n == 0x0B || n == 0x0C || n == 0x0D || n == 0x20 ||
  n == 0xA0 || n == 0x1680 || (0x2000 ≤ n && n ≤ 0x200A) || n == 0x2028 ||
  n == 0x2029 || n == 0x202F || n == 0x205F || n == 0x3000 || n == 0xFEFF

/-- Value of a character as a digit in radix up to 36 (`0-9`, `a-z`, `A-Z`). -/
def digitValue (c : Char) : Option Nat :=
  let n := c.toNat
  if 48 ≤ n ∧ n ≤ 57 then some (n - 48)
  else if 97 ≤ n ∧ n ≤ 122 then some (n - 97 + 10)
  else if 65 ≤ n ∧ n ≤ 90 then some (n - 65 + 10)
  else none

/-- Whether `c` is a digit of radix `R`. -/
def isRadixDigit (R : Nat) (c : Char) : Bool :=
  match digitValue c with
  | some d => decide (d < R)
  | none => false

/-- The integer a run of radix-`R` digits denotes. -/
def radixValue (R : Nat) (cs : List Char) : Nat :=
  cs.foldl (fun acc c => acc * R + (digitValue c).getD 0) 0

/-- The sign step of `parseInt`: a leading `-` makes the result negative, and a leading
`+` or `-` is removed. -/
def readSign (cs : List Char) : Bool × List Char :=
  match cs with
  | '-' :: t => (true, t)
  | '+' :: t => (false, t)
  | _ => (false, cs)

/-- The radix step of `parseInt` when no radix is given: a leading `0x` or `0X` is removed
and selects radix 16, otherwise the radix is 10. -/
def readRadix (cs : List Char) : Nat × List Char :=
  match cs with
  | '0' :: 'x' :: t => (16, t)
  | '0' :: 'X' :: t => (16, t)
  | _ => (10, cs)

/-- JavaScript `parseInt(string)` with no radix argument; `none` is `NaN`.
Leading white space is skipped, a sign is read, a `0x`/`0X` mark selects radix 16, and
the longest run of digits is converted; anything after it is ignored. -/
def parseInt (s : String) : Option Int :=
  let signed := readSign (s.toList.dropWhile isStrWhiteSpaceChar)
  let based := readRadix signed.2
  let Z := based.2.takeWhile (isRadixDigit based.1)
  if Z.isEmpty then none
  else
    let mathInt : Int := (radixValue based.1 Z : Nat)
    some (if signed.1 then -mathInt else mathInt)

/-- A JavaScript number as `ToNumber` of a string can produce it. -/
inductive JSNumber where
  | nan : JSNumber
  | infinity (negative : Bool) : JSNumber
  | finite (q : ℚ) : JSNumber
  deriving DecidableEq

/-- Unary minus on numbers. -/
def JSNumber.neg : JSNumber → JSNumber
  | .nan => .nan
  | .infinity b => .infinity (!b)
  | .finite q => .finite (-q)

/-- The `ExponentPart` after its `e`/`E`: an optional sign and at least one digit. -/
def parseExponent (cs : List Char) : Option Int :=
  let (negative, ds) : Bool × List Char := match cs with
    | '+' :: t => (false, t)
    | '-' :: t => (true, t)
    | _ => (false, cs)
  if ds.isEmpty || !ds.all (isRadixDigit 10) then none
  else
    let e : Int := (radixValue 10 ds : Nat)
    some (if negative then -e else e)

/-- The fraction of a decimal literal: after a `.`, the run of digits that follows. -/
def readFraction (cs : List Char) : List Char × List Char :=
  match cs with
  | '.' :: t => (t.takeWhile (isRadixDigit 10), t.dropWhile (isRadixDigit 10))
  | _ => ([], cs)

/-- ECMAScript `StrUnsignedDecimalLiteral`: `Infinity`, or digits with an optional
fraction and an optional exponent; at least one digit must stand before the exponent. -/
def parseUnsignedDecimal (cs : List Char) : JSNumber :=
  if cs = "Infinity".toList then .infinity false
  else
    let ip := cs.takeWhile (isRadixDigit 10)
    let fraction := readFraction (cs.dropWhile (isRadixDigit 10))
    let fp := fraction.1
    if ip.isEmpty && fp.isEmpty then .nan
    else
      let mantissa : ℚ := (radixValue 10 ip : ℚ) + (radixValue 10 fp : ℚ) / 10 ^ fp.length
      match fraction.2 with
      | [] => .finite mantissa
      | c :: t =>
        if c = 'e' ∨ c = 'E' then
          match parseExponent t with
          | some e => .finite (mantissa * 10 ^ e)
          | none => .nan
        else .nan

/-- ECMAScript `NonDecimalIntegerLiteral` after its `0x`/`0o`/`0b` mark. -/
def parseNonDecimal (R : Nat) (cs : List Char) : JSNumber :=
  if cs.isEmpty || !cs.all (isRadixDigit R) then .nan
  else .finite (radixValue R cs : ℚ)

/-- Removal of white space at both ends of a string. -/
def trimWhiteSpace (cs : List Char) : List Char :=
  ((cs.dropWhile isStrWhiteSpaceChar).reverse.dropWhile isStrWhiteSpaceChar).reverse

/-- The mathematical value of a trimmed string as a `StringNumericLiteral`: nothing at
all is `0`, a `0x`/`0o`/`0b` mark starts an unsigned integer in that radix, and anything
else must be a decimal literal with an optional sign; what does not parse is `NaN`. -/
def stringNumericValue (cs : List Char) : JSNumber :=
  match cs with
  | [] => .finite 0
  | '0' :: 'x' :: t => parseNonDecimal 16 t
  | '0' :: 'X' :: t => parseNonDecimal 16 t
  | '0' :: 'o' :: t => parseNonDecimal 8 t
  | '0' :: 'O' :: t => parseNonDecimal 8 t
  | '0' :: 'b' :: t => parseNonDecimal 2 t
  | '0' :: 'B' :: t => parseNonDecimal 2 t
  | '+' :: t => parseUnsignedDecimal t
  | '-' :: t => (parseUnsignedDecimal t).neg
  | _ => parseUnsignedDecimal cs

/-- Rounding of a rational to the nearest integer, a tie going to the even neighbour. -/
def roundHalfEven (x : ℚ) : ℤ :=
  let f := ⌊x⌋
  if x - f < 1 / 2 then f
  else if 1 / 2 < x - f then f + 1
  else if f % 2 = 0 then f
  else f + 1

/-- The nearest multiple of the unit in the last place of a positive rational `a` in
IEEE 754 binary64: 53 significant bits, exponents from -1022 (below that the spacing stays
that of the subnormal numbers), a tie going to the even significand. -/
def roundMagnitude (a : ℚ) : ℚ :=
  let e := max (Int.log 2 a) (-1022)
  let ulp : ℚ := 2 ^ (e - 52)
  (roundHalfEven (a / ulp) : ℚ) * ulp

/-- The Number value of a mathematical value: the nearest double, or an infinity when the
rounded magnitude reaches `2 ^ 1024`. -/
def roundToDouble (q : ℚ) : JSNumber :=
  if q = 0 then .finite 0
  else
    let r := roundMagnitude |q|
    if (2 : ℚ) ^ (1024 : ℕ) ≤ r then .infinity (decide (q < 0))
    else .finite (if q < 0 then -r else r)

/-- The Number value of a parsed literal: a finite mathematical value is rounded to the
nearest double. -/
def JSNumber.toDouble : JSNumber → JSNumber
  | .finite q => roundToDouble q
  | x => x

/-- JavaScript `ToNumber` of a string (`StringToNumber`): white space is trimmed at both
sides, the whole of what remains must be one numeric literal, and the result is the Number
value (the nearest double) of the literal's mathematical value. -/
def toNumber (s : String) : JSNumber :=
  (stringNumericValue (trimWhiteSpace s.toList)).toDouble

/-- Loose equality `id == param` of a stored numeric id with the path string: the string
is converted with `ToNumber` and the numbers are compared (`NaN` equals nothing). -/
def looseEq (id : Int) (param : String) : Bool :=
  match toNumber param with
  | .finite q => decide (q = (id : ℚ))
  | _ => false

/-- Strict equality `id === parsed` of a stored numeric id with the result of `parseInt`
(`NaN` equals nothing). -/
def strictEq (id : Int) (parsed : Option Int) : Bool :=
  match parsed with
  | some n => decide (id = n)
  | none => false

/-! ## Records, seeded collections and responses -/

/-- A person record `{ id, name, email, role }`. -/
structure Person where
  id : Int
  name : JSValue
  email : JSValue
  role : JSValue

/-- A project record `{ id, name, description }`. -/
structure Project where
  id : Int
  name : JSValue
  description : JSValue

/-- A task record `{ id, title, description, status, projectId, assignedTo }`. -/
structure Task where
  id : Int
  title : JSValue
  description : JSValue
  status : JSValue
  projectId : JSValue
  assignedTo : JSValue

/-- The initial value of `let people`. -/
def people : List Person :=
  [ { id := 1, name := .string "James", email := .string "j@correo.com", role := .string "Dev" },
    { id := 2, name := .string "Maria", email := .string "maria@correo.com",
      role := .string "QA" } ]

/-- The initial value of `let projects`. -/
def projects : List Project :=
  [ { id := 1, name := .string "Plataforma Educativa",
      description := .string "Sistema de cursos online" } ]

/-- The initial value of `let tasks`. -/
def tasks : List Task :=
  [ { id := 1, title := .string "Diseñar UI", description := .string "Pantalla principal",
      status := .string "todo", projectId := .number 1, assignedTo := .number 1 } ]

/-- The value `res.json` is given for a person. -/
def Person.toJSON (p : Person) : JSValue :=
  .object [("id", .number p.id), ("name", p.name), ("email", p.email), ("role", p.role)]

/-- The value `res.json` is given for a project. -/
def Project.toJSON (p : Project) : JSValue :=
  .object [("id", .number p.id), ("name", p.name), ("description", p.description)]

/-- The value `res.json` is given for a task. -/
def Task.toJSON (t : Task) : JSValue :=
  .object [("id", .number t.id), ("title", t.title), ("description", t.description),
    ("status", t.status), ("projectId", t.projectId), ("assignedTo", t.assignedTo)]

/-- An HTTP response: status code (`200` unless `res.status` sets it) and the value given
to `res.json`. -/
structure Response where
  status : Nat
  body : JSValue

/-- The body `{ message: text }`. -/
def messageBody (text : String) : JSValue :=
  .object [("message", .string text)]

/-- Whether the response body is an object with a `message` field. -/
def Response.hasMessage (r : Response) : Bool :=
  match r.body with
  | .object fields => (fields.lookup "message").isSome
  | _ => false

/-- Assignment to a field of the object `find` returned: the first element of the array
satisfying `p` is the object mutated, in place. -/
def modifyFirst {α : Type} (p : α → Bool) (f : α → α) : List α → List α
  | [] => []
  | x :: xs => if p x then f x :: xs else x :: modifyFirst p f xs

/-! ## People handlers (`peopleRouter`) -/

/-- `peopleRouter.get("/")`. -/
def peopleGetAll (people : List Person) : Response × List Person :=
  (⟨200, .array (people.map Person.toJSON)⟩, people)

/-- `peopleRouter.get("/:id")`. -/
def peopleGet (people : List Person) (id : String) : Response × List Person :=
  match people.find? (fun p => looseEq p.id id) with
  | none => (⟨404, messageBody "Persona no encontrada"⟩, people)
  | some person => (⟨200, person.toJSON⟩, people)

/-- `peopleRouter.post("/")`. -/
def peoplePost (people : List Person) (body : Body) : Response × List Person :=
  let name := body.field "name"
  let email := body.field "email"
  let role := body.field "role"
  if !name.truthy || !email.truthy || !role.truthy then
    (⟨400, messageBody "Faltan datos en la solicitud"⟩, people)
  else
    let id : Int := match people.getLast? with
      | some last => last.id + 1
      | none => 1
    (⟨201, messageBody "Persona creada"⟩, people ++ [{ id := id, name := name, email := email, role := role }])

/-- `peopleRouter.put("/:id")`. -/
def peoplePut (people : List Person) (id : String) (body : Body) :
    Response × List Person :=
  let role := body.field "role"
  match people.find? (fun p => looseEq p.id id) with
  | none => (⟨404, messageBody "Persona no encontrada"⟩, people)
  | some _ =>
    (⟨200, messageBody "Persona actualizada"⟩,
      if role.truthy then
        modifyFirst (fun p => looseEq p.id id) (fun p => { p with role := role }) people
      else people)

/-- `peopleRouter.delete("/:id")`. -/
def peopleDelete (people : List Person) (param : String) : Response × List Person :=
  let id := parseInt param
  let found := people.any (fun p => strictEq p.id id)
  if !found then (⟨404, messageBody "Persona no encontrada"⟩, people)
  else (⟨200, messageBody "Persona eliminada"⟩, people.filter (fun p => !strictEq p.id id))

/-! ## Project handlers -/

/-- `app.get(baseProjects)`. -/
def projectsGetAll (projects : List Project) : Response × List Project :=
  (⟨200, .array (projects.map Project.toJSON)⟩, projects)

/-- `app.get(baseProjects/:id)`. -/
def projectsGet (projects : List Project) (id : String) : Response × List Project :=
  match projects.find? (fun p => strictEq p.id (parseInt id)) with
  | none => (⟨404, messageBody "Proyecto no encontrado"⟩, projects)
  | some project => (⟨200, project.toJSON⟩, projects)

/-- `app.post(baseProjects)`. -/
def projectsPost (projects : List Project) (body : Body) : Response × List Project :=
  let name := body.field "name"
  let description := body.field "description"
  if !name.truthy || !description.truthy then
    (⟨400, messageBody "Faltan datos del proyecto"⟩, projects)
  else
    let newProject : Project :=
      { id := match projects.getLast? with
          | some last => last.id + 1
          | none => 1,
        name := name,
        description := description }
    (⟨201, messageBody "Proyecto creado"⟩, projects ++ [newProject])

/-- `app.put(baseProjects/:id)`. -/
def projectsPut (projects : List Project) (id : String) (body : Body) :
    Response × List Project :=
  let name := body.field "name"
  match projects.find? (fun p => strictEq p.id (parseInt id)) with
  | none => (⟨404, messageBody "Proyecto no encontrado"⟩, projects)
  | some _ =>
    (⟨200, messageBody "Proyecto actualizado"⟩,
      if name.truthy then
        modifyFirst (fun p => strictEq p.id (parseInt id)) (fun p => { p with name := name })
          projects
      else projects)

/-- `app.delete(baseProjects/:id)`: `findIndex` then `splice(index, 1)`. -/
def projectsDelete (projects : List Project) (param : String) :
    Response × List Project :=
  let id := parseInt param
  match projects.findIdx? (fun p => strictEq p.id id) with
  | none => (⟨404, messageBody "Proyecto no encontrado"⟩, projects)
  | some index => (⟨200, messageBody "Proyecto eliminado"⟩, projects.eraseIdx index)

/-! ## Task handlers -/

/-- `app.get(baseTasks)`. -/
def tasksGetAll (tasks : List Task) : Response × List Task :=
  (⟨200, .array (tasks.map Task.toJSON)⟩, tasks)

/-- `app.get(baseTasks/:id)`. -/
def tasksGet (tasks : List Task) (id : String) : Response × List Task :=
  match tasks.find? (fun t => strictEq t.id (parseInt id)) with
  | none => (⟨404, messageBody "Tarea no encontrada"⟩, tasks)
  | some task => (⟨200, task.toJSON⟩, tasks)

/-- `app.post(baseTasks)`. -/
def tasksPost (tasks : List Task) (body : Body) : Response × List Task :=
  let title := body.field "title"
  let description := body.field "description"
  let projectId := body.field "projectId"
  let assignedTo := body.field "assignedTo"
  if !title.truthy || !description.truthy || !projectId.truthy then
    (⟨400, messageBody "Faltan campos obligatorios"⟩, tasks)
  else
    let newTask : Task :=
      { id := match tasks.getLast? with
          | some last => last.id + 1
          | none => 1,
        title := title,
        description := description,
        status := .string "todo",
        projectId := projectId,
        assignedTo := if assignedTo.truthy then assignedTo else .null }
    (⟨201, messageBody "Tarea creada"⟩, tasks ++ [newTask])

/-- `app.put(baseTasks/:id)`. -/
def tasksPut (tasks : List Task) (id : String) (body : Body) : Response × List Task :=
  let status := body.field "status"
  match tasks.find? (fun t => strictEq t.id (parseInt id)) with
  | none => (⟨404, messageBody "Tarea no encontrada"⟩, tasks)
  | some _ =>
    (⟨200, messageBody "Tarea actualizada"⟩,
      if status.truthy then
        modifyFirst (fun t => strictEq t.id (parseInt id)) (fun t => { t with status := status })
          tasks
      else tasks)

/-- `app.delete(baseTasks/:id)`. -/
def tasksDelete (tasks : List Task) (param : String) : Response × List Task :=
  let id := parseInt param
  let found := tasks.any (fun t => strictEq t.id id)
  if !found then (⟨404, messageBody "Tarea no encontrada"⟩, tasks)
  else (⟨200, messageBody "Tarea eliminada"⟩, tasks.filter (fun t => !strictEq t.id id))

/-! ## Requests, dispatch and reachable states -/

/-- The five requests a collection's routes accept. -/
inductive Request where
  | getAll : Request
  | get (id : String) : Request
  | post (body : Body) : Request
  | put (id : String) (body : Body) : Request
  | delete (id : String) : Request

/-- Routing of a request on `/api/v1/people`. -/
def peopleHandle (people : List Person) : Request → Response × List Person
  | .getAll => peopleGetAll people
  | .get id => peopleGet people id
  | .post body => peoplePost people body
  | .put id body => peoplePut people id body
  | .delete id => peopleDelete people id

/-- Routing of a request on `/api/v1/projects`. -/
def projectsHandle (projects : List Project) : Request → Response × List Project
  | .getAll => projectsGetAll projects
  | .get id => projectsGet projects id
  | .post body => projectsPost projects body
  | .put id body => projectsPut projects id body
  | .delete id => projectsDelete projects id

/-- Routing of a request on `/api/v1/tasks`. -/
def tasksHandle (tasks : List Task) : Request → Response × List Task
  | .getAll => tasksGetAll tasks
  | .get id => tasksGet tasks id
  | .post body => tasksPost tasks body
  | .put id body => tasksPut tasks id body
  | .delete id => tasksDelete tasks id

/-- The module-level state of `server.js`: the three collections. -/
structure Store where
  people : List Person
  projects : List Project
  tasks : List Task

/-- The state when the server starts. -/
def Store.seed : Store :=
  { people := Semana14.people, projects := Semana14.projects, tasks := Semana14.tasks }

/-- A request to one of the fifteen endpoints: the collection its path names and the
request on that collection. -/
inductive ApiRequest where
  | people (r : Request) : ApiRequest
  | projects (r : Request) : ApiRequest
  | tasks (r : Request) : ApiRequest

/-! ## The fifteen handlers on the module state

In `server.js` the handlers are closures over the three module-level variables `people`,
`projects` and `tasks`: each of them could read or assign any of the three. Here every
handler is given the whole state and returns the whole state, as its body in the source
reads and writes it. -/

/-- `peopleRouter.get("/")` on the module state. -/
def storePeopleGetAll (st : Store) : Response × Store :=
  (⟨200, .array (st.people.map Person.toJSON)⟩, st)

/-- `peopleRouter.get("/:id")` on the module state. -/
def storePeopleGet (st : Store) (id : String) : Response × Store :=
  match st.people.find? (fun p => looseEq p.id id) with
  | none => (⟨404, messageBody "Persona no encontrada"⟩, st)
  | some person => (⟨200, person.toJSON⟩, st)

/-- `peopleRouter.post("/")` on the module state. -/
def storePeoplePost (st : Store) (body : Body) : Response × Store :=
  let name := body.field "name"
  let email := body.field "email"
  let role := body.field "role"
  if !name.truthy || !email.truthy || !role.truthy then
    (⟨400, messageBody "Faltan datos en la solicitud"⟩, st)
  else
    let id : Int := match st.people.getLast? with
      | some last => last.id + 1
      | none => 1
    (⟨201, messageBody "Persona creada"⟩,
      { st with people := st.people ++ [Person.mk id name email role] })

/-- `peopleRouter.put("/:id")` on the module state. -/
def storePeoplePut (st : Store) (id : String) (body : Body) : Response × Store :=
  let role := body.field "role"
  match st.people.find? (fun p => looseEq p.id id) with
  | none => (⟨404, messageBody "Persona no encontrada"⟩, st)
  | some _ =>
    (⟨200, messageBody "Persona actualizada"⟩,
      if role.truthy then
        { st with people := (modifyFirst (fun p => looseEq p.id id)
            (fun p => { p with role := role }) st.people) }
      else st)

/-- `peopleRouter.delete("/:id")` on the module state. -/
def storePeopleDelete (st : Store) (param : String) : Response × Store :=
  let id := parseInt param
  let found := st.people.any (fun p => strictEq p.id id)
  if !found then (⟨404, messageBody "Persona no encontrada"⟩, st)
  else
    (⟨200, messageBody "Persona eliminada"⟩,
      { st with people := st.people.filter (fun p => !strictEq p.id id) })

/-- `app.get(baseProjects)` on the module state. -/
def storeProjectsGetAll (st : Store) : Response × Store :=
  (⟨200, .array (st.projects.map Project.toJSON)⟩, st)

/-- `app.get(baseProjects/:id)` on the module state. -/
def storeProjectsGet (st : Store) (id : String) : Response × Store :=
  match st.projects.find? (fun p => strictEq p.id (parseInt id)) with
  | none => (⟨404, messageBody "Proyecto no encontrado"⟩, st)
  | some project => (⟨200, project.toJSON⟩, st)

/-- `app.post(baseProjects)` on the module state. -/
def storeProjectsPost (st : Store) (body : Body) : Response × Store :=
  let name := body.field "name"
  let description := body.field "description"
  if !name.truthy || !description.truthy then
    (⟨400, messageBody "Faltan datos del proyecto"⟩, st)
  else
    let id : Int := match st.projects.getLast? with
      | some last => last.id + 1
      | none => 1
    (⟨201, messageBody "Proyecto creado"⟩,
      { st with projects := st.projects ++ [Project.mk id name description] })

/-- `app.put(baseProjects/:id)` on the module state. -/
def storeProjectsPut (st : Store) (id : String) (body : Body) : Response × Store :=
  let name := body.field "name"
  match st.projects.find? (fun p => strictEq p.id (parseInt id)) with
  | none => (⟨404, messageBody "Proyecto no encontrado"⟩, st)
  | some _ =>
    (⟨200, messageBody "Proyecto actualizado"⟩,
      if name.truthy then
        { st with projects := (modifyFirst (fun p => strictEq p.id (parseInt id))
            (fun p => { p with name := name }) st.projects) }
      else st)

/-- `app.delete(baseProjects/:id)` on the module state. -/
def storeProjectsDelete (st : Store) (param : String) : Response × Store :=
  let id := parseInt param
  match st.projects.findIdx? (fun p => strictEq p.id id) with
  | none => (⟨404, messageBody "Proyecto no encontrado"⟩, st)
  | some index =>
    (⟨200, messageBody "Proyecto eliminado"⟩,
      { st with projects := st.projects.eraseIdx index })

/-- `app.get(baseTasks)` on the module state. -/
def storeTasksGetAll (st : Store) : Response × Store :=
  (⟨200, .array (st.tasks.map Task.toJSON)⟩, st)

/-- `app.get(baseTasks/:id)` on the module state. -/
def storeTasksGet (st : Store) (id : String) : Response × Store :=
  match st.tasks.find? (fun t => strictEq t.id (parseInt id)) with
  | none => (⟨404, messageBody "Tarea no encontrada"⟩, st)
  | some task => (⟨200, task.toJSON⟩, st)

/-- `app.post(baseTasks)` on the module state. -/
def storeTasksPost (st : Store) (body : Body) : Response × Store :=
  let title := body.field "title"
  let description := body.field "description"
  let projectId := body.field "projectId"
  let assignedTo := body.field "assignedTo"
  if !title.truthy || !description.truthy || !projectId.truthy then
    (⟨400, messageBody "Faltan campos obligatorios"⟩, st)
  else
    let id : Int := match st.tasks.getLast? with
      | some last => last.id + 1
      | none => 1
    (⟨201, messageBody "Tarea creada"⟩,
      { st with tasks := (st.tasks ++ [Task.mk id title description (.string "todo") projectId
          (if assignedTo.truthy then assignedTo else .null)]) })

/-- `app.put(baseTasks/:id)` on the module state. -/
def storeTasksPut (st : Store) (id : String) (body : Body) : Response × Store :=
  let status := body.field "status"
  match st.tasks.find? (fun t => strictEq t.id (parseInt id)) with
  | none => (⟨404, messageBody "Tarea no encontrada"⟩, st)
  | some _ =>
    (⟨200, messageBody "Tarea actualizada"⟩,
      if status.truthy then
        { st with tasks := (modifyFirst (fun t => strictEq t.id (parseInt id))
            (fun t => { t with status := status }) st.tasks) }
      else st)

/-- `app.delete(baseTasks/:id)` on the module state. -/
def storeTasksDelete (st : Store) (param : String) : Response × Store :=
  let id := parseInt param
  let found := st.tasks.any (fun t => strictEq t.id id)
  if !found then (⟨404, messageBody "Tarea no encontrada"⟩, st)
  else
    (⟨200, messageBody "Tarea eliminada"⟩,
      { st with tasks := st.tasks.filter (fun t => !strictEq t.id id) })

/-- The whole application: the request is routed to the handler bound to its verb and
path, which runs on the module state. -/
def handle (st : Store) : ApiRequest → Response × Store
  | .people .getAll => storePeopleGetAll st
  | .people (.get id) => storePeopleGet st id
  | .people (.post body) => storePeoplePost st body
  | .people (.put id body) => storePeoplePut st id body
  | .people (.delete id) => storePeopleDelete st id
  | .projects .getAll => storeProjectsGetAll st
  | .projects (.get id) => storeProjectsGet st id
  | .projects (.post body) => storeProjectsPost st body
  | .projects (.put id body) => storeProjectsPut st id body
  | .projects (.delete id) => storeProjectsDelete st id
  | .tasks .getAll => storeTasksGetAll st
  | .tasks (.get id) => storeTasksGet st id
  | .tasks (.post body) => storeTasksPost st body
  | .tasks (.put id body) => storeTasksPut st id body
  | .tasks (.delete id) => storeTasksDelete st id

/-- The collection states reachable from `seed` by a sequence of requests (accepted or
rejected) served by `handler`. -/
inductive Reachable {α : Type} (handler : List α → Request → Response × List α)
    (seed : List α) : List α → Prop where
  | seed : Reachable handler seed seed
  | step {l : List α} (h : Reachable handler seed l) (r : Request) :
      Reachable handler seed (handler l r).2

/-- The path segment `param` is read as the integer `id` by both conversions the handlers
apply to `req.params.id`. -/
def PathDenotes (param : String) (id : Int) : Prop :=
  parseInt param = some id ∧ toNumber param = JSNumber.finite (id : ℚ)

/-- The character of the decimal digit `d`. -/
def decimalChar (d : Nat) : Char := Char.ofNat (48 + d)

/-- The decimal digits of a natural number, most significant first; `0` is `"0"`. -/
def decimalDigits (m : Nat) : List Char :=
  if m = 0 then ['0'] else (Nat.digits 10 m).reverse.map decimalChar

/-- The path segment a client writes for the integer `n`: its decimal rendering, the one
JavaScript `String(n)` gives. -/
def idPath (n : Int) : String :=
  String.mk (if n < 0 then '-' :: decimalDigits n.natAbs else decimalDigits n.natAbs)

/-- A nonempty run of decimal digits. -/
def IsDigitRun (ds : List Char) : Prop :=
  ds ≠ [] ∧ ∀ c ∈ ds, isRadixDigit 10 c = true

/-- A body passes the presence check of a create handler: each required field is truthy. -/
def Body.hasAll (body : Body) (required : List String) : Prop :=
  ∀ k ∈ required, (body.field k).truthy = true

/-- The id expression of the three create handlers,
`xs.length ? xs[xs.length - 1].id + 1 : 1`, over the id field `key`. -/
def nextId {α : Type} (key : α → Int) (l : List α) : Int :=
  match l.getLast? with
  | some last => key last + 1
  | none => 1

/-- A request is turned down: the response has status `code` and a body with a `message`
field, and the collection is left as it was. -/
def RejectedWith {α : Type} (code : Nat) (before : List α) (out : Response × List α) : Prop :=
  out.1.status = code ∧ out.1.hasMessage = true ∧ out.2 = before

/-- The step from `before` to `after` removes one record, the one whose id is `id`: the
records around it stay, in order, and none of them has that id. -/
def RemovesOnly {α : Type} (key : α → Int) (id : Int) (before after : List α) : Prop :=
  ∃ l₁ x l₂, before = l₁ ++ x :: l₂ ∧ key x = id ∧ (∀ q ∈ l₁ ++ l₂, key q ≠ id) ∧
    after = l₁ ++ l₂

instance (body : Body) (required : List String) : Decidable (body.hasAll required) := by
  unfold Body.hasAll
  infer_instance

/-- The greatest id of a list of ids, `none` for the empty list. -/
def maxId : List Int → Option Int
  | [] => none
  | x :: xs =>
    match maxId xs with
    | none => some x
    | some m => some (max x m)

/-- The id the specification gives a new record: the greatest id present plus one, or `1`
when there is none. -/
def maxIdPlusOne (ids : List Int) : Int :=
  match maxId ids with
  | some m => m + 1
  | none => 1

/-- The body `{ name: "Ann", email: "a@x.com", role: "Dev" }`. -/
def annBody : Body :=
  [("name", .string "Ann"), ("email", .string "a@x.com"), ("role", .string "Dev")]

/-- The body `{ name: "Web", description: "Sitio" }`. -/
def webBody : Body :=
  [("name", .string "Web"), ("description", .string "Sitio")]

/-- The body `{ title: "X", description: "Y", projectId: 7, status: "done" }`. -/
def doneBody : Body :=
  [("title", .string "X"), ("description", .string "Y"), ("projectId", .number 7),
    ("status", .string "done")]

/-- The body `{ title: "X" }`. -/
def titleOnlyBody : Body :=
  [("title", .string "X")]

/-- The body `{ name: "Ann", email: "", role: "Dev" }`. -/
def blankEmailBody : Body :=
  [("name", .string "Ann"), ("email", .string ""), ("role", .string "Dev")]

/-- The body `{ id: 99, name: "Eve", role: "Lead", status: "done" }`. -/
def leadBody : Body :=
  [("id", .number 99), ("name", .string "Eve"), ("role", .string "Lead"),
    ("status", .string "done")]

/-- The body `{ title: "X", description: "Y", projectId: 7 }`. -/
def plainTaskBody : Body :=
  [("title", .string "X"), ("description", .string "Y"), ("projectId", .number 7)]

/-- A state with no project at all, and the seeded people and tasks. -/
def noProjectsStore : Store :=
  { people := people, projects := [], tasks := tasks }

/-- The body `{ role: "" }`. -/
def blankRoleBody : Body :=
  [("role", .string "")]

/-- A people collection holding one record, with id 7. -/
def soloPeople : List Person :=
  [{ id := 7, name := .string "Zoe", email := .string "z@x.com", role := .string "PM" }]

/-- The collection after the requests `reqs` are served in order, starting from `l`. -/
def runFrom {α : Type} (handler : List α → Request → Response × List α) (l : List α)
    (reqs : List Request) : List α :=
  reqs.foldl (fun st r => (handler st r).2) l

/-- The id `id` was held by some record at some point of the run `reqs` from `seed`: in
the state after some initial part of the requests (none of them, for the seed itself). -/
def HeldDuring {α : Type} (handler : List α → Request → Response × List α) (key : α → Int)
    (seed : List α) (reqs : List Request) (id : Int) : Prop :=
  ∃ pre, pre <+: reqs ∧ id ∈ (runFrom handler seed pre).map key

/-- The run: create Ann, then delete person 2. -/
def annThenDeleteTwo : List Request :=
  [.post annBody, .delete "2"]

/-- The seeded person 1 alone. -/
def jamesOnly : List Person :=
  [{ id := 1, name := .string "James", email := .string "j@correo.com", role := .string "Dev" }]

/-- The record created from `annBody` on the seeded people: it gets id 3. -/
def annThird : Person :=
  { id := 3, name := .string "Ann", email := .string "a@x.com", role := .string "Dev" }

/-- The invariant of a collection: ids strictly increase in stored order and are
positive. -/
def IdsAscending {α : Type} (key : α → Int) (l : List α) : Prop :=
  (l.map key).Pairwise (· < ·) ∧ ∀ x ∈ l, 0 < key x

/-! ## Falsy values -/

/-- The values a presence check `!v` turns down: `undefined` (an absent property), `null`,
`false`, `0` and the empty string. -/
theorem JSValue.truthy_eq_false_iff (v : JSValue) :
    v.truthy = false ↔
      v = .undefined ∨ v = .null ∨ v = .bool false ∨ v = .number 0 ∨ v = .string "" := by
  cases v <;> simp [JSValue.truthy]

/-- A property the body does not have reads as `undefined`, which is falsy. -/
theorem Body.field_absent {body : Body} {key : String} (h : body.lookup key = none) :
    body.field key = JSValue.undefined ∧ (body.field key).truthy = false := by
  simp [Body.field, h, JSValue.truthy]

/-! ## Lists: the array operations the handlers rely on -/

section ListLemmas

variable {α : Type}

theorem key_le_getLast (key : α → Int) {l : List α} {x : α}
    (hl : (l.map key).Pairwise (· < ·)) (hx : l.getLast? = some x) :
    ∀ y ∈ l, key y ≤ key x := by
  obtain ⟨ys, rfl⟩ := List.getLast?_eq_some_iff.mp hx
  intro y hy
  rw [List.map_append, List.pairwise_append] at hl
  rcases List.mem_append.mp hy with h | h
  · exact le_of_lt (hl.2.2 _ (List.mem_map_of_mem key h) _ (by simp))
  · simp at h
    simp [h]

theorem map_modifyFirst (key : α → Int) (p : α → Bool) (f : α → α)
    (hf : ∀ x, key (f x) = key x) (l : List α) :
    (modifyFirst p f l).map key = l.map key := by
  induction l with
  | nil => rfl
  | cons x xs ih =>
    unfold modifyFirst
    split
    · simp [hf]
    · simp [ih]

theorem length_modifyFirst (p : α → Bool) (f : α → α) (l : List α) :
    (modifyFirst p f l).length = l.length := by
  induction l with
  | nil => rfl
  | cons x xs ih =>
    unfold modifyFirst
    split
    · simp
    · simp [ih]

theorem mem_modifyFirst (key : α → Int) (p : α → Bool) (f : α → α)
    (hf : ∀ x, key (f x) = key x) {l : List α} {y : α} (hy : y ∈ modifyFirst p f l) :
    ∃ x ∈ l, key x = key y := by
  have h : key y ∈ (modifyFirst p f l).map key := List.mem_map_of_mem key hy
  rw [map_modifyFirst key p f hf] at h
  obtain ⟨x, hx, hxy⟩ := List.mem_map.mp h
  exact ⟨x, hx, hxy⟩

/-- When some element satisfies `p`, `modifyFirst` rewrites exactly the first such one. -/
theorem modifyFirst_eq_of_split (p : α → Bool) (f : α → α) {l₁ l₂ : List α} {x : α}
    (h₁ : ∀ a ∈ l₁, p a = false) (hx : p x = true) :
    modifyFirst p f (l₁ ++ x :: l₂) = l₁ ++ f x :: l₂ := by
  induction l₁ with
  | nil => simp [modifyFirst, hx]
  | cons a as ih =>
    have ha : p a = false := h₁ a (by simp)
    have ih2 := ih (fun b hb => h₁ b (by simp [hb]))
    simp [modifyFirst, ha, ih2]

/-- The result of `modifyFirst` is the list itself (no element satisfies `p`), or the list
with its first element satisfying `p` replaced by its image. -/
theorem modifyFirst_cases (p : α → Bool) (f : α → α) (l : List α) :
    modifyFirst p f l = l ∨
      ∃ l₁ x l₂, l = l₁ ++ x :: l₂ ∧ (∀ a ∈ l₁, p a = false) ∧ p x = true ∧
        modifyFirst p f l = l₁ ++ f x :: l₂ := by
  cases h : l.find? p with
  | none =>
    left
    rw [List.find?_eq_none] at h
    induction l with
    | nil => rfl
    | cons a as ih =>
      have ha : p a = false := by simpa using h a (by simp)
      simp only [modifyFirst, ha]
      rw [ih (fun x hx => h x (by simp [hx]))]
      simp
  | some x =>
    right
    obtain ⟨hx, l₁, l₂, hl, h₁⟩ := List.find?_eq_some.mp h
    have h₁f : ∀ a ∈ l₁, p a = false := fun a ha => by simpa using h₁ a ha
    exact ⟨l₁, x, l₂, hl, h₁f, hx, by rw [hl]; exact modifyFirst_eq_of_split p f h₁f hx⟩

theorem IdsAscending.append_next (key : α → Int) {l : List α} (h : IdsAscending key l)
    (x : α) (hx : key x = nextId key l) :
    IdsAscending key (l ++ [x]) := by
  obtain ⟨hp, hpos⟩ := h
  unfold nextId at hx
  cases hl : l.getLast? with
  | none =>
    rw [hl] at hx
    replace hx : key x = 1 := hx
    have : l = [] := List.getLast?_eq_none_iff.mp hl
    subst this
    simp [IdsAscending, hx]
  | some last =>
    rw [hl] at hx
    replace hx : key x = key last + 1 := hx
    have hmax := key_le_getLast key hp hl
    have hlast : last ∈ l := by
      obtain ⟨ys, rfl⟩ := List.getLast?_eq_some_iff.mp hl
      simp
    refine ⟨?_, ?_⟩
    · rw [List.map_append, List.pairwise_append]
      refine ⟨hp, by simp, ?_⟩
      intro a ha b hb
      obtain ⟨y, hy, rfl⟩ := List.mem_map.mp ha
      simp at hb
      subst hb
      have := hmax y hy
      omega
    · intro y hy
      rcases List.mem_append.mp hy with h | h
      · exact hpos y h
      · simp at h
        subst h
        have := hpos last hlast
        omega

theorem IdsAscending.sublist (key : α → Int) {l l' : List α} (h : IdsAscending key l)
    (hs : l'.Sublist l) : IdsAscending key l' :=
  ⟨h.1.sublist (hs.map key), fun x hx => h.2 x (hs.subset hx)⟩

theorem IdsAscending.modifyFirst (key : α → Int) (p : α → Bool) (f : α → α)
    (hf : ∀ x, key (f x) = key x) {l : List α} (h : IdsAscending key l) :
    IdsAscending key (modifyFirst p f l) := by
  refine ⟨by rw [map_modifyFirst key p f hf]; exact h.1, ?_⟩
  intro y hy
  obtain ⟨x, hx, hxy⟩ := mem_modifyFirst key p f hf hy
  rw [← hxy]
  exact h.2 x hx

theorem IdsAscending.nodup (key : α → Int) {l : List α} (h : IdsAscending key l) :
    (l.map key).Nodup :=
  h.1.imp (fun hab => ne_of_lt hab)

theorem split_of_nodup (key : α → Int) {l : List α} (hn : (l.map key).Nodup) {id : Int}
    (hid : id ∈ l.map key) :
    ∃ l₁ x l₂, l = l₁ ++ x :: l₂ ∧ key x = id ∧ ∀ q ∈ l₁ ++ l₂, key q ≠ id := by
  obtain ⟨x, hx, rfl⟩ := List.mem_map.mp hid
  obtain ⟨l₁, l₂, rfl⟩ := List.append_of_mem hx
  refine ⟨l₁, x, l₂, rfl, rfl, ?_⟩
  rw [List.map_append, List.map_cons, List.nodup_middle, List.nodup_cons] at hn
  intro q hq hqx
  apply hn.1
  rw [← hqx, ← List.map_append]
  exact List.mem_map_of_mem key hq

/-- On a list without duplicate ids, `filter` on `id !== n` removes one record only. -/
theorem filter_removesOnly (key : α → Int) {l : List α} (hn : (l.map key).Nodup) {id : Int}
    (hid : id ∈ l.map key) :
    RemovesOnly key id l (l.filter (fun q => !decide (key q = id))) := by
  obtain ⟨l₁, x, l₂, rfl, hx, hne⟩ := split_of_nodup key hn hid
  refine ⟨l₁, x, l₂, rfl, hx, hne, ?_⟩
  rw [List.filter_append, List.filter_cons]
  have h1 : l₁.filter (fun q => !decide (key q = id)) = l₁ := by
    rw [List.filter_eq_self]
    intro a ha
    simp [hne a (List.mem_append_left _ ha)]
  have h2 : l₂.filter (fun q => !decide (key q = id)) = l₂ := by
    rw [List.filter_eq_self]
    intro a ha
    simp [hne a (List.mem_append_right _ ha)]
  simp [h1, h2, hx]

theorem findIdx?_of_split (p : α → Bool) {l₁ l₂ : List α} {x : α}
    (h₁ : ∀ a ∈ l₁, p a = false) (hx : p x = true) :
    (l₁ ++ x :: l₂).findIdx? p = some l₁.length := by
  induction l₁ with
  | nil => simp [List.findIdx?_cons, hx]
  | cons a as ih =>
    have ha : p a = false := h₁ a (by simp)
    have ih2 := ih (fun b hb => h₁ b (by simp [hb]))
    simp [List.findIdx?_cons, ha, List.findIdx?_succ, ih2]

theorem eraseIdx_of_split (l₁ l₂ : List α) (x : α) :
    (l₁ ++ x :: l₂).eraseIdx l₁.length = l₁ ++ l₂ := by
  induction l₁ with
  | nil => rfl
  | cons a as ih => simp [List.eraseIdx, ih]

/-- On a list without duplicate ids, `findIndex` on `id === n` followed by
`splice(index, 1)` removes one record only. -/
theorem splice_removesOnly (key : α → Int) {l : List α} (hn : (l.map key).Nodup) {id : Int}
    (hid : id ∈ l.map key) :
    ∃ index, l.findIdx? (fun q => decide (key q = id)) = some index ∧
      RemovesOnly key id l (l.eraseIdx index) := by
  obtain ⟨l₁, x, l₂, rfl, hx, hne⟩ := split_of_nodup key hn hid
  refine ⟨l₁.length, ?_, l₁, x, l₂, rfl, hx, hne, eraseIdx_of_split l₁ l₂ x⟩
  apply findIdx?_of_split
  · intro a ha
    simp [hne a (List.mem_append_left _ ha)]
  · simp [hx]

theorem RemovesOnly.length {key : α → Int} {id : Int} {before after : List α}
    (h : RemovesOnly key id before after) : after.length + 1 = before.length := by
  obtain ⟨l₁, x, l₂, rfl, _, _, rfl⟩ := h
  simp
  omega

theorem RemovesOnly.absent {key : α → Int} {id : Int} {before after : List α}
    (h : RemovesOnly key id before after) : ∀ q ∈ after, key q ≠ id := by
  obtain ⟨l₁, x, l₂, rfl, _, hne, rfl⟩ := h
  exact hne

end ListLemmas

/-! ## Reads leave the collection alone -/

theorem peopleGet_snd (ps : List Person) (s : String) : (peopleGet ps s).2 = ps := by
  unfold peopleGet
  split <;> rfl

theorem projectsGet_snd (ps : List Project) (s : String) : (projectsGet ps s).2 = ps := by
  unfold projectsGet
  split <;> rfl

theorem tasksGet_snd (ts : List Task) (s : String) : (tasksGet ts s).2 = ts := by
  unfold tasksGet
  split <;> rfl

/-! ## The id invariant is kept by every handler -/

theorem peopleHandle_ascending {ps : List Person} (h : IdsAscending Person.id ps)
    (r : Request) : IdsAscending Person.id (peopleHandle ps r).2 := by
  cases r with
  | getAll => exact h
  | get s => simpa [peopleHandle, peopleGet_snd] using h
  | post body =>
    simp only [peopleHandle, peoplePost]
    split
    · exact h
    · exact h.append_next Person.id _ (by unfold nextId; cases ps.getLast? <;> rfl)
  | put s body =>
    simp only [peopleHandle, peoplePut]
    split
    · exact h
    · dsimp only
      split
      · apply IdsAscending.modifyFirst Person.id _ _ _ h
        intro x
        rfl
      · exact h
  | delete s =>
    simp only [peopleHandle, peopleDelete]
    split
    · exact h
    · exact h.sublist Person.id (List.filter_sublist _)

theorem projectsHandle_ascending {ps : List Project} (h : IdsAscending Project.id ps)
    (r : Request) : IdsAscending Project.id (projectsHandle ps r).2 := by
  cases r with
  | getAll => exact h
  | get s => simpa [projectsHandle, projectsGet_snd] using h
  | post body =>
    simp only [projectsHandle, projectsPost]
    split
    · exact h
    · exact h.append_next Project.id _ (by unfold nextId; cases ps.getLast? <;> rfl)
  | put s body =>
    simp only [projectsHandle, projectsPut]
    split
    · exact h
    · dsimp only
      split
      · apply IdsAscending.modifyFirst Project.id _ _ _ h
        intro x
        rfl
      · exact h
  | delete s =>
    simp only [projectsHandle, projectsDelete]
    split
    · exact h
    · exact h.sublist Project.id (List.eraseIdx_sublist _ _)

theorem tasksHandle_ascending {ts : List Task} (h : IdsAscending Task.id ts)
    (r : Request) : IdsAscending Task.id (tasksHandle ts r).2 := by
  cases r with
  | getAll => exact h
  | get s => simpa [tasksHandle, tasksGet_snd] using h
  | post body =>
    simp only [tasksHandle, tasksPost]
    split
    · exact h
    · exact h.append_next Task.id _ (by unfold nextId; cases ts.getLast? <;> rfl)
  | put s body =>
    simp only [tasksHandle, tasksPut]
    split
    · exact h
    · dsimp only
      split
      · apply IdsAscending.modifyFirst Task.id _ _ _ h
        intro x
        rfl
      · exact h
  | delete s =>
    simp only [tasksHandle, tasksDelete]
    split
    · exact h
    · exact h.sublist Task.id (List.filter_sublist _)

theorem maxId_eq_none_iff (l : List Int) : maxId l = none ↔ l = [] := by
  cases l with
  | nil => simp [maxId]
  | cons x xs =>
    simp only [maxId]
    cases maxId xs <;> simp

theorem maxId_eq_some_iff (l : List Int) (m : Int) :
    maxId l = some m ↔ m ∈ l ∧ ∀ x ∈ l, x ≤ m := by
  induction l generalizing m with
  | nil => simp [maxId]
  | cons a as ih =>
    simp only [maxId]
    cases h : maxId as with
    | none =>
      have : as = [] := (maxId_eq_none_iff as).mp h
      subst this
      simp only [Option.some.injEq, List.mem_singleton]
      constructor
      · rintro rfl
        exact ⟨rfl, fun x hx => le_of_eq hx⟩
      · rintro ⟨h1, _⟩
        exact h1.symm
    | some k =>
      obtain ⟨hk, hmax⟩ := (ih k).mp h
      simp only [Option.some.injEq, List.mem_cons]
      constructor
      · rintro rfl
        refine ⟨?_, ?_⟩
        · rcases le_total a k with hak | hak
          · right
            rw [max_eq_right hak]
            exact hk
          · left
            exact max_eq_left hak
        · intro x hx
          rcases hx with rfl | hx
          · exact le_max_left _ _
          · exact le_trans (hmax x hx) (le_max_right _ _)
      · rintro ⟨hm, hle⟩
        apply le_antisymm
        · exact max_le (hle a (Or.inl rfl)) (hle k (Or.inr hk))
        · rcases hm with rfl | hm
          · exact le_max_left _ _
          · exact le_trans (hmax m hm) (le_max_right _ _)

/-- On a collection whose ids increase, the id after the last one is the greatest id plus
one. -/
theorem nextId_eq_maxIdPlusOne {α : Type} (key : α → Int) {l : List α}
    (h : IdsAscending key l) : nextId key l = maxIdPlusOne (l.map key) := by
  unfold nextId maxIdPlusOne
  cases hl : l.getLast? with
  | none =>
    have : l = [] := List.getLast?_eq_none_iff.mp hl
    subst this
    rfl
  | some last =>
    have hmem : last ∈ l := by
      obtain ⟨ys, rfl⟩ := List.getLast?_eq_some_iff.mp hl
      simp
    have hmax : maxId (l.map key) = some (key last) := by
      rw [maxId_eq_some_iff]
      refine ⟨List.mem_map_of_mem key hmem, ?_⟩
      intro x hx
      obtain ⟨y, hy, rfl⟩ := List.mem_map.mp hx
      exact key_le_getLast key h.1 hl y hy
    rw [hmax]

theorem seed_people_ascending : IdsAscending Person.id people := by
  simp [IdsAscending, people]

theorem seed_projects_ascending : IdsAscending Project.id projects := by
  simp [IdsAscending, projects]

theorem seed_tasks_ascending : IdsAscending Task.id tasks := by
  simp [IdsAscending, tasks]

theorem Reachable.people_ids_ascending {ps : List Person}
    (h : Reachable peopleHandle people ps) : IdsAscending Person.id ps := by
  induction h with
  | seed => exact seed_people_ascending
  | step _ r ih => exact peopleHandle_ascending ih r

theorem Reachable.projects_ids_ascending {ps : List Project}
    (h : Reachable projectsHandle projects ps) : IdsAscending Project.id ps := by
  induction h with
  | seed => exact seed_projects_ascending
  | step _ r ih => exact projectsHandle_ascending ih r

theorem Reachable.tasks_ids_ascending {ts : List Task}
    (h : Reachable tasksHandle tasks ts) : IdsAscending Task.id ts := by
  induction h with
  | seed => exact seed_tasks_ascending
  | step _ r ih => exact tasksHandle_ascending ih r

/-! ## Path parameters that denote an integer -/

theorem looseEq_eq_decide {s : String} {id : Int} (h : PathDenotes s id) (n : Int) :
    looseEq n s = decide (n = id) := by
  unfold looseEq
  rw [h.2]
  simp [eq_comm]

theorem strictEq_eq_decide {s : String} {id : Int} (h : parseInt s = some id) (n : Int) :
    strictEq n (parseInt s) = decide (n = id) := by
  unfold strictEq
  rw [h]

theorem isRadixDigit_ten_iff (c : Char) :
    isRadixDigit 10 c = true ↔ 48 ≤ c.toNat ∧ c.toNat ≤ 57 := by
  unfold isRadixDigit digitValue
  simp only
  split_ifs with h1 h2 h3 <;> simp <;> omega

theorem not_whiteSpace_of_digit {c : Char} (h : isRadixDigit 10 c = true) :
    isStrWhiteSpaceChar c = false := by
  have h2 := (isRadixDigit_ten_iff c).mp h
  unfold isStrWhiteSpaceChar
  simp
  omega

theorem decimalChar_spec : ∀ d, d < 10 →
    digitValue (decimalChar d) = some d ∧ isRadixDigit 10 (decimalChar d) = true := by
  decide

theorem radixValue_append (R : Nat) (cs : List Char) (c : Char) :
    radixValue R (cs ++ [c]) = radixValue R cs * R + (digitValue c).getD 0 := by
  simp [radixValue, List.foldl_append]

theorem radixValue_decimal (l : List Nat) (hl : ∀ d ∈ l, d < 10) :
    radixValue 10 (l.reverse.map decimalChar) = Nat.ofDigits 10 l := by
  induction l with
  | nil => rfl
  | cons d ds ih =>
    rw [List.reverse_cons, List.map_append, List.map_singleton, radixValue_append,
      ih (fun x hx => hl x (by simp [hx])), (decimalChar_spec d (hl d (by simp))).1,
      Nat.ofDigits_cons]
    simp
    omega

theorem decimalDigits_value (m : Nat) : radixValue 10 (decimalDigits m) = m := by
  unfold decimalDigits
  split
  · subst_vars; decide
  · rw [radixValue_decimal _ (fun d hd => Nat.digits_lt_base (by norm_num) hd),
      Nat.ofDigits_digits]

theorem decimalDigits_all (m : Nat) : ∀ c ∈ decimalDigits m, isRadixDigit 10 c = true := by
  unfold decimalDigits
  split
  · decide
  · intro c hc
    obtain ⟨d, hd, rfl⟩ := List.mem_map.mp hc
    exact (decimalChar_spec d (Nat.digits_lt_base (by norm_num) (List.mem_reverse.mp hd))).2

theorem decimalDigits_ne_nil (m : Nat) : decimalDigits m ≠ [] := by
  unfold decimalDigits
  split
  · simp
  · rename_i h
    simp [Nat.digits_ne_nil_iff_ne_zero, h]

theorem takeWhile_digitRun {ds : List Char} (h : IsDigitRun ds) :
    ds.takeWhile (isRadixDigit 10) = ds :=
  List.takeWhile_eq_self_iff.mpr h.2

theorem dropWhile_digitRun {ds : List Char} (h : IsDigitRun ds) :
    ds.dropWhile (isRadixDigit 10) = [] :=
  List.dropWhile_eq_nil_iff.mpr h.2

theorem readSign_digitRun {ds : List Char} (h : IsDigitRun ds) : readSign ds = (false, ds) := by
  unfold readSign
  split
  · exact absurd (h.2 '-' (by simp)) (by decide)
  · exact absurd (h.2 '+' (by simp)) (by decide)
  · rfl

theorem readRadix_digitRun {ds : List Char} (h : IsDigitRun ds) : readRadix ds = (10, ds) := by
  unfold readRadix
  split
  · exact absurd (h.2 'x' (by simp)) (by decide)
  · exact absurd (h.2 'X' (by simp)) (by decide)
  · rfl

theorem dropWhile_whiteSpace_digitRun {ds : List Char} (h : IsDigitRun ds) :
    ds.dropWhile isStrWhiteSpaceChar = ds := by
  obtain ⟨hne, hall⟩ := h
  cases ds with
  | nil => exact absurd rfl hne
  | cons c t => simp [List.dropWhile, not_whiteSpace_of_digit (hall c (by simp))]

theorem parseInt_digitRun {ds : List Char} (h : IsDigitRun ds) :
    parseInt (String.mk ds) = some ((radixValue 10 ds : Nat) : Int) := by
  unfold parseInt
  simp only [String.toList, dropWhile_whiteSpace_digitRun h, readSign_digitRun h,
    readRadix_digitRun h, takeWhile_digitRun h]
  have : ds.isEmpty = false := by
    cases ds with
    | nil => exact absurd rfl h.1
    | cons c t => rfl
  simp [this]

theorem parseInt_neg_digitRun {ds : List Char} (h : IsDigitRun ds) :
    parseInt (String.mk ('-' :: ds)) = some (-((radixValue 10 ds : Nat) : Int)) := by
  unfold parseInt
  have hd : ('-' :: ds).dropWhile isStrWhiteSpaceChar = '-' :: ds :=
    List.dropWhile_cons_of_neg (by decide)
  have hs : readSign ('-' :: ds) = (true, ds) := rfl
  simp only [String.toList, hd, hs, readRadix_digitRun h, takeWhile_digitRun h]
  have : ds.isEmpty = false := by
    cases ds with
    | nil => exact absurd rfl h.1
    | cons c t => rfl
  simp [this]

theorem reverse_dropWhile_of_getLast {ds : List Char} {c : Char} (init : List Char)
    (hds : ds = init ++ [c]) (hc : isStrWhiteSpaceChar c = false) :
    (ds.reverse.dropWhile isStrWhiteSpaceChar).reverse = ds := by
  subst hds
  simp [List.dropWhile, hc]

theorem trimWhiteSpace_digitRun {ds : List Char} (h : IsDigitRun ds) :
    trimWhiteSpace ds = ds := by
  unfold trimWhiteSpace
  rw [dropWhile_whiteSpace_digitRun h]
  rcases List.eq_nil_or_concat ds with hnil | ⟨init, c, hds⟩
  · exact absurd hnil h.1
  · rw [List.concat_eq_append] at hds
    exact reverse_dropWhile_of_getLast init hds
      (not_whiteSpace_of_digit (h.2 c (by simp [hds])))

theorem trimWhiteSpace_neg_digitRun {ds : List Char} (h : IsDigitRun ds) :
    trimWhiteSpace ('-' :: ds) = '-' :: ds := by
  unfold trimWhiteSpace
  have hd : ('-' :: ds).dropWhile isStrWhiteSpaceChar = '-' :: ds :=
    List.dropWhile_cons_of_neg (by decide)
  rw [hd]
  rcases List.eq_nil_or_concat ds with hnil | ⟨init, c, hds⟩
  · exact absurd hnil h.1
  · rw [List.concat_eq_append] at hds
    exact reverse_dropWhile_of_getLast ('-' :: init) (by simp [hds])
      (not_whiteSpace_of_digit (h.2 c (by simp [hds])))

theorem parseUnsignedDecimal_digitRun {ds : List Char} (h : IsDigitRun ds) :
    parseUnsignedDecimal ds = .finite (radixValue 10 ds : Nat) := by
  have hinf : ds ≠ "Infinity".toList := by
    intro hc
    exact absurd (h.2 'I' (by simp [hc])) (by decide)
  have hne : ds.isEmpty = false := by
    cases ds with
    | nil => exact absurd rfl h.1
    | cons c t => rfl
  unfold parseUnsignedDecimal
  rw [if_neg hinf]
  simp only [takeWhile_digitRun h, dropWhile_digitRun h, readFraction, hne]
  simp [radixValue]

theorem stringNumericValue_digitRun {ds : List Char} (h : IsDigitRun ds) :
    stringNumericValue ds = parseUnsignedDecimal ds := by
  unfold stringNumericValue
  split
  · exact absurd rfl h.1
  · exact absurd (h.2 'x' (by simp)) (by decide)
  · exact absurd (h.2 'X' (by simp)) (by decide)
  · exact absurd (h.2 'o' (by simp)) (by decide)
  · exact absurd (h.2 'O' (by simp)) (by decide)
  · exact absurd (h.2 'b' (by simp)) (by decide)
  · exact absurd (h.2 'B' (by simp)) (by decide)
  · exact absurd (h.2 '+' (by simp)) (by decide)
  · exact absurd (h.2 '-' (by simp)) (by decide)
  · rfl

theorem roundHalfEven_intCast (N : ℤ) : roundHalfEven (N : ℚ) = N := by
  simp [roundHalfEven]

theorem roundMagnitude_natCast (a : ℕ) (h1 : 1 ≤ a) (h2 : a ≤ 2 ^ 53) :
    roundMagnitude (a : ℚ) = a := by
  have hpos : (0 : ℚ) < (a : ℚ) := by exact_mod_cast h1
  have he0 : (0 : ℤ) ≤ Int.log 2 (a : ℚ) := by
    rw [← Int.zpow_le_iff_le_log (by norm_num) hpos]
    simpa using h1
  have he54 : Int.log 2 (a : ℚ) < 54 := by
    rw [← Int.lt_zpow_iff_log_lt (by norm_num) hpos]
    have : (a : ℚ) ≤ 2 ^ 53 := by exact_mod_cast h2
    calc (a : ℚ) ≤ 2 ^ 53 := this
      _ < ((2 : ℕ) : ℚ) ^ (54 : ℤ) := by norm_num
  unfold roundMagnitude
  have hmax : max (Int.log 2 (a : ℚ)) (-1022) = Int.log 2 (a : ℚ) := max_eq_left (by omega)
  simp only [hmax]
  have hulp : ((2 : ℚ) ^ (Int.log 2 (a : ℚ) - 52)) ≠ 0 := zpow_ne_zero _ (by norm_num)
  obtain ⟨N, hN⟩ : ∃ N : ℤ, (a : ℚ) / 2 ^ (Int.log 2 (a : ℚ) - 52) = (N : ℚ) := by
    by_cases hle : Int.log 2 (a : ℚ) ≤ 52
    · obtain ⟨d, hd⟩ : ∃ d : ℕ, Int.log 2 (a : ℚ) - 52 = -(d : ℤ) :=
        ⟨(52 - Int.log 2 (a : ℚ)).toNat, by omega⟩
      refine ⟨(a * 2 ^ d : ℕ), ?_⟩
      rw [hd, zpow_neg, zpow_natCast, div_inv_eq_mul]
      push_cast
      ring
    · have he : Int.log 2 (a : ℚ) = 53 := by omega
      have hge : ((2 : ℕ) : ℚ) ^ (53 : ℤ) ≤ (a : ℚ) := by
        rw [← he]
        exact Int.zpow_log_le_self (by norm_num) hpos
      have ha : a = 2 ^ 53 := by
        apply le_antisymm h2
        have : ((2 ^ 53 : ℕ) : ℚ) ≤ (a : ℚ) := by
          calc ((2 ^ 53 : ℕ) : ℚ) = ((2 : ℕ) : ℚ) ^ (53 : ℤ) := by norm_num
            _ ≤ (a : ℚ) := hge
        exact_mod_cast this
      refine ⟨2 ^ 52, ?_⟩
      rw [he, ha]
      norm_num
  rw [hN, roundHalfEven_intCast, ← hN]
  exact div_mul_cancel₀ _ hulp

theorem roundToDouble_intCast (n : ℤ) (h : |n| ≤ 2 ^ 53) :
    roundToDouble (n : ℚ) = JSNumber.finite (n : ℚ) := by
  unfold roundToDouble
  by_cases h0 : n = 0
  · simp [h0]
  · have hq : (n : ℚ) ≠ 0 := by exact_mod_cast h0
    rw [if_neg hq]
    have habs : |(n : ℚ)| = ((n.natAbs : ℕ) : ℚ) := by
      rw [← Int.cast_abs, Int.abs_eq_natAbs, Int.cast_natCast]
    have h1 : 1 ≤ n.natAbs := by omega
    have h2 : n.natAbs ≤ 2 ^ 53 := by
      have : (n.natAbs : ℤ) ≤ 2 ^ 53 := by rw [← Int.abs_eq_natAbs]; exact h
      exact_mod_cast this
    simp only [habs, roundMagnitude_natCast _ h1 h2]
    have hsmall : ¬ ((2 : ℚ) ^ (1024 : ℕ) ≤ ((n.natAbs : ℕ) : ℚ)) := by
      have : ((n.natAbs : ℕ) : ℚ) ≤ 2 ^ 53 := by exact_mod_cast h2
      have h53 : (2 : ℚ) ^ 53 < 2 ^ (1024 : ℕ) := by norm_num
      intro hc
      linarith
    rw [if_neg hsmall]
    congr 1
    by_cases hneg : (n : ℚ) < 0
    · rw [if_pos hneg, ← habs, abs_of_neg hneg, neg_neg]
    · rw [if_neg hneg, ← habs, abs_of_nonneg (not_lt.mp hneg)]

/-- A string whose literal has an integer value of magnitude at most `2 ^ 53` converts to
that integer: rounding to a double does not move it. -/
theorem toNumber_of_value {s : String} {n : Int}
    (hv : stringNumericValue (trimWhiteSpace s.toList) = JSNumber.finite (n : ℚ))
    (hn : |n| ≤ 2 ^ 53) : toNumber s = JSNumber.finite (n : ℚ) := by
  unfold toNumber
  rw [hv]
  exact roundToDouble_intCast n hn

theorem value_digitRun {ds : List Char} (h : IsDigitRun ds) :
    stringNumericValue (trimWhiteSpace (String.mk ds).toList) =
      .finite (((radixValue 10 ds : Nat) : Int) : ℚ) := by
  rw [String.toList, trimWhiteSpace_digitRun h, stringNumericValue_digitRun h,
    parseUnsignedDecimal_digitRun h, Int.cast_natCast]

theorem value_neg_digitRun {ds : List Char} (h : IsDigitRun ds) :
    stringNumericValue (trimWhiteSpace (String.mk ('-' :: ds)).toList) =
      .finite ((-((radixValue 10 ds : Nat) : Int) : Int) : ℚ) := by
  rw [String.toList, trimWhiteSpace_neg_digitRun h]
  have : stringNumericValue ('-' :: ds) = (parseUnsignedDecimal ds).neg := rfl
  rw [this, parseUnsignedDecimal_digitRun h, Int.cast_neg, Int.cast_natCast]
  rfl

theorem decimalDigits_digitRun (m : Nat) : IsDigitRun (decimalDigits m) :=
  ⟨decimalDigits_ne_nil m, decimalDigits_all m⟩

/-- Every integer id a double holds exactly has a path segment that denotes it: its
decimal rendering. -/
theorem idPath_denotes (n : Int) (hn : |n| ≤ 2 ^ 53) : PathDenotes (idPath n) n := by
  have hrun := decimalDigits_digitRun n.natAbs
  unfold PathDenotes idPath
  by_cases hneg : n < 0
  · have h1 : -((n.natAbs : Nat) : Int) = n := by omega
    rw [if_pos hneg, parseInt_neg_digitRun hrun, decimalDigits_value, h1]
    refine ⟨rfl, toNumber_of_value ?_ hn⟩
    rw [value_neg_digitRun hrun, decimalDigits_value, h1]
  · have h1 : ((n.natAbs : Nat) : Int) = n := by omega
    rw [if_neg hneg, parseInt_digitRun hrun, decimalDigits_value, h1]
    refine ⟨rfl, toNumber_of_value ?_ hn⟩
    rw [value_digitRun hrun, decimalDigits_value, h1]

theorem pathDenotes_nine : PathDenotes "9" 9 := by
  constructor
  · decide
  · apply toNumber_of_value
    · simp [trimWhiteSpace, stringNumericValue, parseUnsignedDecimal, readFraction,
        isStrWhiteSpaceChar, isRadixDigit, digitValue, radixValue]
    · norm_num

theorem pathDenotes_one : PathDenotes "1" 1 := by
  constructor
  · decide
  · apply toNumber_of_value
    · simp [trimWhiteSpace, stringNumericValue, parseUnsignedDecimal, readFraction,
        isStrWhiteSpaceChar, isRadixDigit, digitValue, radixValue]
    · norm_num

/-- The double nearest to `1 + 10⁻¹⁹` is `1`. -/
theorem roundToDouble_one_plus_tiny :
    roundToDouble (1 + 1 / 10 ^ 19) = JSNumber.finite 1 := by
  have hpos : (0 : ℚ) < 1 + 1 / 10 ^ 19 := by norm_num
  have hlog : Int.log 2 ((1 : ℚ) + 1 / 10 ^ 19) = 0 := by
    apply le_antisymm
    · have : Int.log 2 ((1 : ℚ) + 1 / 10 ^ 19) < 1 := by
        rw [← Int.lt_zpow_iff_log_lt (by norm_num) hpos]
        norm_num
      omega
    · rw [← Int.zpow_le_iff_le_log (by norm_num) hpos]
      norm_num
  have hq : ((1 : ℚ) + 1 / 10 ^ 19) ≠ 0 := ne_of_gt hpos
  have habs : |(1 : ℚ) + 1 / 10 ^ 19| = 1 + 1 / 10 ^ 19 := abs_of_pos hpos
  have hfloor : ⌊((1 : ℚ) + 1 / 10 ^ 19) / 2 ^ ((0 : ℤ) - 52)⌋ = 2 ^ 52 := by
    rw [Int.floor_eq_iff]
    norm_num
  simp only [roundToDouble, if_neg hq, habs, roundMagnitude, hlog, roundHalfEven, hfloor]
  norm_num

/-- A path with a fraction too small for a double converts to the integer next to it:
`ToNumber("1.0000000000000000001")` is `1`, while `parseInt` reads the digits before the
point. -/
theorem pathDenotes_one_with_tiny_fraction : PathDenotes "1.0000000000000000001" 1 := by
  constructor
  · decide
  · have hv : stringNumericValue (trimWhiteSpace "1.0000000000000000001".toList) =
        JSNumber.finite (1 + 1 / 10 ^ 19) := by
      simp [trimWhiteSpace, stringNumericValue, parseUnsignedDecimal, readFraction,
        isStrWhiteSpaceChar, isRadixDigit, digitValue, radixValue]
    unfold toNumber
    rw [hv]
    simpa [JSNumber.toDouble] using roundToDouble_one_plus_tiny

/-! ## Delete of an id that is present -/

theorem peopleDelete_present {ps : List Person} (hn : (ps.map Person.id).Nodup) {s : String}
    {id : Int} (hs : parseInt s = some id) (hid : id ∈ ps.map Person.id) :
    (peopleDelete ps s).1.status = 200 ∧
      RemovesOnly Person.id id ps (peopleDelete ps s).2 := by
  have hany : ps.any (fun p => strictEq p.id (parseInt s)) = true := by
    obtain ⟨p, hp, hpid⟩ := List.mem_map.mp hid
    rw [List.any_eq_true]
    exact ⟨p, hp, by simp [strictEq_eq_decide hs, hpid]⟩
  have hf : (fun p : Person => !strictEq p.id (parseInt s)) =
      (fun p => !decide (p.id = id)) := by
    funext p
    rw [strictEq_eq_decide hs]
  simp only [peopleDelete, hany, hf]
  exact ⟨rfl, filter_removesOnly Person.id hn hid⟩

theorem projectsDelete_present {ps : List Project} (hn : (ps.map Project.id).Nodup)
    {s : String} {id : Int} (hs : parseInt s = some id) (hid : id ∈ ps.map Project.id) :
    (projectsDelete ps s).1.status = 200 ∧
      RemovesOnly Project.id id ps (projectsDelete ps s).2 := by
  have hf : (fun p : Project => strictEq p.id (parseInt s)) =
      (fun p => decide (p.id = id)) := by
    funext p
    rw [strictEq_eq_decide hs]
  obtain ⟨index, hidx, hrem⟩ := splice_removesOnly Project.id hn hid
  have hd : projectsDelete ps s =
      (⟨200, messageBody "Proyecto eliminado"⟩, ps.eraseIdx index) := by
    simp only [projectsDelete, hf, hidx]
  rw [hd]
  exact ⟨rfl, hrem⟩

theorem tasksDelete_present {ts : List Task} (hn : (ts.map Task.id).Nodup) {s : String}
    {id : Int} (hs : parseInt s = some id) (hid : id ∈ ts.map Task.id) :
    (tasksDelete ts s).1.status = 200 ∧
      RemovesOnly Task.id id ts (tasksDelete ts s).2 := by
  have hany : ts.any (fun t => strictEq t.id (parseInt s)) = true := by
    obtain ⟨t, ht, htid⟩ := List.mem_map.mp hid
    rw [List.any_eq_true]
    exact ⟨t, ht, by simp [strictEq_eq_decide hs, htid]⟩
  have hf : (fun t : Task => !strictEq t.id (parseInt s)) =
      (fun t => !decide (t.id = id)) := by
    funext t
    rw [strictEq_eq_decide hs]
  simp only [tasksDelete, hany, hf]
  exact ⟨rfl, filter_removesOnly Task.id hn hid⟩

/-! ## Get of an id that is absent -/

theorem peopleGet_absent {ps : List Person} {s : String} {id : Int} (hs : PathDenotes s id)
    (hne : ∀ p ∈ ps, p.id ≠ id) : (peopleGet ps s).1.status = 404 := by
  have hfind : ps.find? (fun p => looseEq p.id s) = none := by
    rw [List.find?_eq_none]
    intro p hp
    simp [looseEq_eq_decide hs, hne p hp]
  simp only [peopleGet, hfind]

theorem projectsGet_absent {ps : List Project} {s : String} {id : Int}
    (hs : PathDenotes s id) (hne : ∀ p ∈ ps, p.id ≠ id) :
    (projectsGet ps s).1.status = 404 := by
  have hfind : ps.find? (fun p => strictEq p.id (parseInt s)) = none := by
    rw [List.find?_eq_none]
    intro p hp
    simp [strictEq_eq_decide hs.1, hne p hp]
  simp only [projectsGet, hfind]

theorem tasksGet_absent {ts : List Task} {s : String} {id : Int} (hs : PathDenotes s id)
    (hne : ∀ t ∈ ts, t.id ≠ id) : (tasksGet ts s).1.status = 404 := by
  have hfind : ts.find? (fun t => strictEq t.id (parseInt s)) = none := by
    rw [List.find?_eq_none]
    intro t ht
    simp [strictEq_eq_decide hs.1, hne t ht]
  simp only [tasksGet, hfind]

/-! ## Create with a valid body, delete of a single record, update and get of a present id -/

theorem hasAll_three {body : Body} {a b c : String} (h : body.hasAll [a, b, c]) :
    (body.field a).truthy = true ∧ (body.field b).truthy = true ∧
      (body.field c).truthy = true := by
  simpa [Body.hasAll] using h

theorem hasAll_two {body : Body} {a b : String} (h : body.hasAll [a, b]) :
    (body.field a).truthy = true ∧ (body.field b).truthy = true := by
  simpa [Body.hasAll] using h

theorem peoplePost_valid (ps : List Person) {body : Body}
    (hb : body.hasAll ["name", "email", "role"]) :
    peoplePost ps body = (⟨201, messageBody "Persona creada"⟩,
      ps ++ [Person.mk (nextId Person.id ps) (body.field "name") (body.field "email")
        (body.field "role")]) := by
  obtain ⟨h1, h2, h3⟩ := hasAll_three hb
  simp only [peoplePost, h1, h2, h3]
  unfold nextId
  cases ps.getLast? <;> rfl

theorem projectsPost_valid (ps : List Project) {body : Body}
    (hb : body.hasAll ["name", "description"]) :
    projectsPost ps body = (⟨201, messageBody "Proyecto creado"⟩,
      ps ++ [Project.mk (nextId Project.id ps) (body.field "name")
        (body.field "description")]) := by
  obtain ⟨h1, h2⟩ := hasAll_two hb
  simp only [projectsPost, h1, h2]
  unfold nextId
  cases ps.getLast? <;> rfl

theorem tasksPost_valid (ts : List Task) {body : Body}
    (hb : body.hasAll ["title", "description", "projectId"]) :
    tasksPost ts body = (⟨201, messageBody "Tarea creada"⟩,
      ts ++ [Task.mk (nextId Task.id ts) (body.field "title") (body.field "description")
        (JSValue.string "todo") (body.field "projectId")
        (if (body.field "assignedTo").truthy then body.field "assignedTo"
          else JSValue.null)]) := by
  obtain ⟨h1, h2, h3⟩ := hasAll_three hb
  simp only [tasksPost, h1, h2, h3]
  unfold nextId
  cases ts.getLast? <;> rfl

theorem peopleDelete_single (r : Person) {s : String} (hs : parseInt s = some r.id) :
    peopleDelete [r] s = (⟨200, messageBody "Persona eliminada"⟩, []) := by
  simp [peopleDelete, hs, strictEq]

theorem projectsDelete_single (r : Project) {s : String} (hs : parseInt s = some r.id) :
    projectsDelete [r] s = (⟨200, messageBody "Proyecto eliminado"⟩, []) := by
  simp [projectsDelete, hs, strictEq, List.findIdx?_cons]

theorem tasksDelete_single (r : Task) {s : String} (hs : parseInt s = some r.id) :
    tasksDelete [r] s = (⟨200, messageBody "Tarea eliminada"⟩, []) := by
  simp [tasksDelete, hs, strictEq]

section FirstMatch

variable {α : Type}

/-- A list that holds the id `id` splits at the first record with that id. -/
theorem first_split_of_mem (key : α → Int) {l : List α} {id : Int} (hid : id ∈ l.map key) :
    ∃ l₁ x l₂, l = l₁ ++ x :: l₂ ∧ key x = id ∧ (∀ q ∈ l₁, key q ≠ id) ∧
      l.find? (fun q => decide (key q = id)) = some x := by
  obtain ⟨y, hy, hyid⟩ := List.mem_map.mp hid
  cases h : l.find? (fun q => decide (key q = id)) with
  | none =>
    rw [List.find?_eq_none] at h
    exact absurd (by simpa using hyid) (h y hy)
  | some x =>
    obtain ⟨hx, l₁, l₂, hl, h₁⟩ := List.find?_eq_some.mp h
    refine ⟨l₁, x, l₂, hl, by simpa using hx, ?_, rfl⟩
    intro q hq
    simpa using h₁ q hq

theorem modifyFirst_of_mem (key : α → Int) (f : α → α) {l : List α} {id : Int}
    (hid : id ∈ l.map key) :
    ∃ l₁ x l₂, l = l₁ ++ x :: l₂ ∧ key x = id ∧ (∀ q ∈ l₁, key q ≠ id) ∧
      modifyFirst (fun q => decide (key q = id)) f l = l₁ ++ f x :: l₂ := by
  obtain ⟨l₁, x, l₂, hl, hx, h₁, _⟩ := first_split_of_mem key hid
  refine ⟨l₁, x, l₂, hl, hx, h₁, ?_⟩
  rw [hl]
  exact modifyFirst_eq_of_split _ f (fun a ha => by simpa using h₁ a ha) (by simpa using hx)

end FirstMatch

theorem looseEq_fun {s : String} {id : Int} (hs : PathDenotes s id) :
    (fun p : Person => looseEq p.id s) = (fun p => decide (p.id = id)) := by
  funext p
  exact looseEq_eq_decide hs p.id

theorem peoplePut_present {ps : List Person} {s : String} {id : Int} (hs : PathDenotes s id)
    (hid : id ∈ ps.map Person.id) (body : Body) :
    peoplePut ps s body = (⟨200, messageBody "Persona actualizada"⟩,
      if (body.field "role").truthy then
        modifyFirst (fun p => decide (p.id = id)) (fun p => { p with role := body.field "role" })
          ps
      else ps) := by
  obtain ⟨l₁, x, l₂, _, _, _, hfind⟩ := first_split_of_mem Person.id hid
  simp only [peoplePut, looseEq_fun hs, hfind]

theorem projectsPut_present {ps : List Project} {s : String} {id : Int}
    (hs : parseInt s = some id) (hid : id ∈ ps.map Project.id) (body : Body) :
    projectsPut ps s body = (⟨200, messageBody "Proyecto actualizado"⟩,
      if (body.field "name").truthy then
        modifyFirst (fun p => decide (p.id = id)) (fun p => { p with name := body.field "name" })
          ps
      else ps) := by
  obtain ⟨l₁, x, l₂, _, _, _, hfind⟩ := first_split_of_mem Project.id hid
  have hf : (fun p : Project => strictEq p.id (parseInt s)) = (fun p => decide (p.id = id)) := by
    funext p
    exact strictEq_eq_decide hs p.id
  simp only [projectsPut, hf, hfind]

theorem tasksPut_present {ts : List Task} {s : String} {id : Int}
    (hs : parseInt s = some id) (hid : id ∈ ts.map Task.id) (body : Body) :
    tasksPut ts s body = (⟨200, messageBody "Tarea actualizada"⟩,
      if (body.field "status").truthy then
        modifyFirst (fun t => decide (t.id = id))
          (fun t => { t with status := body.field "status" }) ts
      else ts) := by
  obtain ⟨l₁, x, l₂, _, _, _, hfind⟩ := first_split_of_mem Task.id hid
  have hf : (fun t : Task => strictEq t.id (parseInt s)) = (fun t => decide (t.id = id)) := by
    funext t
    exact strictEq_eq_decide hs t.id
  simp only [tasksPut, hf, hfind]

theorem peopleGet_present {ps : List Person} {s : String} {id : Int} (hs : PathDenotes s id)
    (hid : id ∈ ps.map Person.id) :
    ∃ p ∈ ps, p.id = id ∧ peopleGet ps s = (⟨200, p.toJSON⟩, ps) := by
  obtain ⟨l₁, x, l₂, hl, hx, _, hfind⟩ := first_split_of_mem Person.id hid
  refine ⟨x, by simp [hl], hx, ?_⟩
  simp only [peopleGet, looseEq_fun hs, hfind]

theorem projectsGet_present {ps : List Project} {s : String} {id : Int}
    (hs : parseInt s = some id) (hid : id ∈ ps.map Project.id) :
    ∃ p ∈ ps, p.id = id ∧ projectsGet ps s = (⟨200, p.toJSON⟩, ps) := by
  obtain ⟨l₁, x, l₂, hl, hx, _, hfind⟩ := first_split_of_mem Project.id hid
  have hf : (fun p : Project => strictEq p.id (parseInt s)) = (fun p => decide (p.id = id)) := by
    funext p
    exact strictEq_eq_decide hs p.id
  refine ⟨x, by simp [hl], hx, ?_⟩
  simp only [projectsGet, hf, hfind]

theorem tasksGet_present {ts : List Task} {s : String} {id : Int}
    (hs : parseInt s = some id) (hid : id ∈ ts.map Task.id) :
    ∃ t ∈ ts, t.id = id ∧ tasksGet ts s = (⟨200, t.toJSON⟩, ts) := by
  obtain ⟨l₁, x, l₂, hl, hx, _, hfind⟩ := first_split_of_mem Task.id hid
  have hf : (fun t : Task => strictEq t.id (parseInt s)) = (fun t => decide (t.id = id)) := by
    funext t
    exact strictEq_eq_decide hs t.id
  refine ⟨x, by simp [hl], hx, ?_⟩
  simp only [tasksGet, hf, hfind]

/-! ## Runs of requests and the ids held along them -/

section Runs

variable {α : Type} (handler : List α → Request → Response × List α) (key : α → Int)

theorem runFrom_append (l : List α) (reqs : List Request) (r : Request) :
    runFrom handler l (reqs ++ [r]) = (handler (runFrom handler l reqs) r).2 := by
  simp [runFrom, List.foldl_append]

theorem reachable_runFrom (seed : List α) (reqs : List Request) :
    Reachable handler seed (runFrom handler seed reqs) := by
  induction reqs using List.reverseRecOn with
  | nil => exact Reachable.seed
  | append_singleton rs r ih =>
    rw [runFrom_append]
    exact Reachable.step ih r

theorem HeldDuring.mono {seed : List α} {reqs : List Request} {id : Int}
    (h : HeldDuring handler key seed reqs id) (r : Request) :
    HeldDuring handler key seed (reqs ++ [r]) id := by
  obtain ⟨pre, hpre, hid⟩ := h
  exact ⟨pre, hpre.trans (List.prefix_append reqs [r]), hid⟩

/-- Ids are handed out without gaps: along a run from a seed whose ids are `1 .. n`, every
positive number up to an id now present has been the id of some record at some point. -/
theorem heldDuring_of_le {seed : List α}
    (hseed : ∀ k : Int, 0 < k → (∃ p ∈ seed, k ≤ key p) → k ∈ seed.map key)
    (hids : ∀ (l : List α) (r : Request) (q : α), q ∈ (handler l r).2 →
      (∃ p ∈ l, key p = key q) ∨ key q = nextId key l)
    (reqs : List Request) (k : Int) (hk : 0 < k)
    (hp : ∃ p ∈ runFrom handler seed reqs, k ≤ key p) :
    HeldDuring handler key seed reqs k := by
  induction reqs using List.reverseRecOn generalizing k with
  | nil => exact ⟨[], List.prefix_refl _, hseed k hk hp⟩
  | append_singleton rs r ih =>
    obtain ⟨p, hp, hkp⟩ := hp
    rw [runFrom_append] at hp
    rcases hids _ r p hp with ⟨p0, hp0, hkey⟩ | hnext
    · exact (ih k hk ⟨p0, hp0, by rw [hkey]; exact hkp⟩).mono handler key r
    · by_cases hkeq : k = key p
      · refine ⟨rs ++ [r], List.prefix_refl _, ?_⟩
        rw [runFrom_append, hkeq]
        exact List.mem_map_of_mem key hp
      · have hlt : k < nextId key (runFrom handler seed rs) := by
          rw [← hnext]
          omega
        unfold nextId at hlt
        cases hl : (runFrom handler seed rs).getLast? with
        | none =>
          rw [hl] at hlt
          replace hlt : k < 1 := hlt
          omega
        | some last =>
          rw [hl] at hlt
          replace hlt : k < key last + 1 := hlt
          have hmem : last ∈ runFrom handler seed rs := by
            obtain ⟨ys, hys⟩ := List.getLast?_eq_some_iff.mp hl
            rw [hys]
            simp
          exact (ih k hk ⟨last, hmem, by omega⟩).mono handler key r

/-- After the last record `x` of a collection with increasing positive ids is removed, the
next id to be handed out is positive and at most the id of `x`. -/
theorem nextId_le_removed {init : List α} {x : α} (h : IdsAscending key (init ++ [x])) :
    0 < nextId key init ∧ nextId key init ≤ key x := by
  obtain ⟨hp, hpos⟩ := h
  unfold nextId
  cases hl : init.getLast? with
  | none =>
    have hx := hpos x (by simp)
    show 0 < (1 : Int) ∧ (1 : Int) ≤ key x
    omega
  | some last =>
    have hmem : last ∈ init := by
      obtain ⟨ys, hys⟩ := List.getLast?_eq_some_iff.mp hl
      rw [hys]
      simp
    rw [List.map_append, List.pairwise_append] at hp
    have hlt := hp.2.2 _ (List.mem_map_of_mem key hmem) (key x) (by simp)
    have hlast := hpos last (List.mem_append_left _ hmem)
    show 0 < key last + 1 ∧ key last + 1 ≤ key x
    omega

/-- The id handed out after the last record of a run's final state is removed has been
held during the run. -/
theorem heldDuring_nextId_after_removing_last {seed : List α}
    (hseed : ∀ k : Int, 0 < k → (∃ p ∈ seed, k ≤ key p) → k ∈ seed.map key)
    (hids : ∀ (l : List α) (r : Request) (q : α), q ∈ (handler l r).2 →
      (∃ p ∈ l, key p = key q) ∨ key q = nextId key l)
    (hasc : ∀ l, Reachable handler seed l → IdsAscending key l)
    {reqs : List Request} {init : List α} {x : α}
    (hrun : runFrom handler seed reqs = init ++ [x]) :
    HeldDuring handler key seed reqs (nextId key init) := by
  have h := hasc _ (reachable_runFrom handler seed reqs)
  rw [hrun] at h
  obtain ⟨hpos, hle⟩ := nextId_le_removed key h
  exact heldDuring_of_le handler key hseed hids reqs _ hpos ⟨x, by rw [hrun]; simp, hle⟩

end Runs


theorem mem_append_nextId {α : Type} (key : α → Int) {l : List α} {q x : α}
    (hx : key x = nextId key l) (hq : q ∈ l ++ [x]) :
    (∃ p ∈ l, key p = key q) ∨ key q = nextId key l := by
  rcases List.mem_append.mp hq with h | h
  · exact Or.inl ⟨q, h, rfl⟩
  · simp at h
    subst h
    exact Or.inr hx

theorem peopleHandle_ids (l : List Person) (r : Request) (q : Person)
    (hq : q ∈ (peopleHandle l r).2) :
    (∃ p ∈ l, p.id = q.id) ∨ q.id = nextId Person.id l := by
  cases r with
  | getAll => exact Or.inl ⟨q, hq, rfl⟩
  | get s =>
    simp only [peopleHandle, peopleGet_snd] at hq
    exact Or.inl ⟨q, hq, rfl⟩
  | post body =>
    simp only [peopleHandle, peoplePost] at hq
    split at hq
    · exact Or.inl ⟨q, hq, rfl⟩
    · exact mem_append_nextId Person.id (by unfold nextId; cases l.getLast? <;> rfl) hq
  | put s body =>
    simp only [peopleHandle, peoplePut] at hq
    split at hq
    · exact Or.inl ⟨q, hq, rfl⟩
    · dsimp only at hq
      split at hq
      · refine Or.inl (mem_modifyFirst Person.id _ _ ?_ hq)
        intro y
        rfl
      · exact Or.inl ⟨q, hq, rfl⟩
  | delete s =>
    simp only [peopleHandle, peopleDelete] at hq
    split at hq
    · exact Or.inl ⟨q, hq, rfl⟩
    · exact Or.inl ⟨q, (List.filter_sublist _).subset hq, rfl⟩

theorem projectsHandle_ids (l : List Project) (r : Request) (q : Project)
    (hq : q ∈ (projectsHandle l r).2) :
    (∃ p ∈ l, p.id = q.id) ∨ q.id = nextId Project.id l := by
  cases r with
  | getAll => exact Or.inl ⟨q, hq, rfl⟩
  | get s =>
    simp only [projectsHandle, projectsGet_snd] at hq
    exact Or.inl ⟨q, hq, rfl⟩
  | post body =>
    simp only [projectsHandle, projectsPost] at hq
    split at hq
    · exact Or.inl ⟨q, hq, rfl⟩
    · exact mem_append_nextId Project.id (by unfold nextId; cases l.getLast? <;> rfl) hq
  | put s body =>
    simp only [projectsHandle, projectsPut] at hq
    split at hq
    · exact Or.inl ⟨q, hq, rfl⟩
    · dsimp only at hq
      split at hq
      · refine Or.inl (mem_modifyFirst Project.id _ _ ?_ hq)
        intro y
        rfl
      · exact Or.inl ⟨q, hq, rfl⟩
  | delete s =>
    simp only [projectsHandle, projectsDelete] at hq
    split at hq
    · exact Or.inl ⟨q, hq, rfl⟩
    · exact Or.inl ⟨q, (List.eraseIdx_sublist _ _).subset hq, rfl⟩

theorem tasksHandle_ids (l : List Task) (r : Request) (q : Task)
    (hq : q ∈ (tasksHandle l r).2) :
    (∃ p ∈ l, p.id = q.id) ∨ q.id = nextId Task.id l := by
  cases r with
  | getAll => exact Or.inl ⟨q, hq, rfl⟩
  | get s =>
    simp only [tasksHandle, tasksGet_snd] at hq
    exact Or.inl ⟨q, hq, rfl⟩
  | post body =>
    simp only [tasksHandle, tasksPost] at hq
    split at hq
    · exact Or.inl ⟨q, hq, rfl⟩
    · exact mem_append_nextId Task.id (by unfold nextId; cases l.getLast? <;> rfl) hq
  | put s body =>
    simp only [tasksHandle, tasksPut] at hq
    split at hq
    · exact Or.inl ⟨q, hq, rfl⟩
    · dsimp only at hq
      split at hq
      · refine Or.inl (mem_modifyFirst Task.id _ _ ?_ hq)
        intro y
        rfl
      · exact Or.inl ⟨q, hq, rfl⟩
  | delete s =>
    simp only [tasksHandle, tasksDelete] at hq
    split at hq
    · exact Or.inl ⟨q, hq, rfl⟩
    · exact Or.inl ⟨q, (List.filter_sublist _).subset hq, rfl⟩

theorem seed_people_gapless (k : Int) (hk : 0 < k) (h : ∃ p ∈ people, k ≤ p.id) :
    k ∈ people.map Person.id := by
  obtain ⟨p, hp, hkp⟩ := h
  simp only [people, List.mem_cons, List.mem_singleton, List.not_mem_nil, or_false] at hp
  have : k = 1 ∨ k = 2 := by
    rcases hp with rfl | rfl
    · left
      simp at hkp
      omega
    · simp at hkp
      omega
  rcases this with rfl | rfl <;> decide

theorem seed_projects_gapless (k : Int) (hk : 0 < k) (h : ∃ p ∈ projects, k ≤ p.id) :
    k ∈ projects.map Project.id := by
  obtain ⟨p, hp, hkp⟩ := h
  simp only [projects, List.mem_singleton] at hp
  subst hp
  simp at hkp
  have : k = 1 := by omega
  subst this
  decide

theorem seed_tasks_gapless (k : Int) (hk : 0 < k) (h : ∃ t ∈ tasks, k ≤ t.id) :
    k ∈ tasks.map Task.id := by
  obtain ⟨p, hp, hkp⟩ := h
  simp only [tasks, List.mem_singleton] at hp
  subst hp
  simp at hkp
  have : k = 1 := by omega
  subst this
  decide

/-! ## Agreement of the people handlers on paths that denote an integer -/

/-- People GET and PUT look the record up with the same test, so they agree on absence. -/
theorem peopleGet_404_iff_peoplePut_404 (ps : List Person) (s : String) (body : Body) :
    (peopleGet ps s).1.status = 404 ↔ (peoplePut ps s body).1.status = 404 := by
  unfold peopleGet peoplePut
  cases ps.find? (fun p => looseEq p.id s) <;> simp

/-- On a path that both conversions read as the same integer, the three people handlers
agree on absence. -/
theorem people_absence_agrees_of_denotes (ps : List Person) {s : String} {id : Int}
    (hs : PathDenotes s id) (body : Body) :
    ((peopleGet ps s).1.status = 404 ↔ (peoplePut ps s body).1.status = 404) ∧
    ((peoplePut ps s body).1.status = 404 ↔ (peopleDelete ps s).1.status = 404) := by
  refine ⟨peopleGet_404_iff_peoplePut_404 ps s body, ?_⟩
  by_cases hid : id ∈ ps.map Person.id
  · have h1 := peoplePut_present hs hid body
    have hany : ps.any (fun p => strictEq p.id (parseInt s)) = true := by
      obtain ⟨p, hp, hpid⟩ := List.mem_map.mp hid
      rw [List.any_eq_true]
      exact ⟨p, hp, by simp [strictEq_eq_decide hs.1, hpid]⟩
    rw [h1]
    simp [peopleDelete, hany]
  · have hne : ∀ p ∈ ps, p.id ≠ id := fun p hp h => hid (List.mem_map.mpr ⟨p, hp, h⟩)
    have hfind : ps.find? (fun p => looseEq p.id s) = none := by
      rw [List.find?_eq_none]
      intro p hp
      simp [looseEq_eq_decide hs, hne p hp]
    have hany : ps.any (fun p => strictEq p.id (parseInt s)) = false := by
      rw [List.any_eq_false]
      intro p hp
      simp [strictEq_eq_decide hs.1, hne p hp]
    simp [peoplePut, peopleDelete, hfind, hany]

/-! ## Each handler on the module state acts on its own collection only -/

theorem storePeopleGetAll_eq (st : Store) :
    storePeopleGetAll st =
      ((peopleGetAll st.people).1, { st with people := (peopleGetAll st.people).2 }) := rfl

theorem storePeopleGet_eq (st : Store) (id : String) :
    storePeopleGet st id =
      ((peopleGet st.people id).1, { st with people := (peopleGet st.people id).2 }) := by
  unfold storePeopleGet peopleGet
  cases st.people.find? (fun p => looseEq p.id id) <;> rfl

theorem storePeoplePost_eq (st : Store) (body : Body) :
    storePeoplePost st body =
      ((peoplePost st.people body).1, { st with people := (peoplePost st.people body).2 }) := by
  unfold storePeoplePost peoplePost
  dsimp only
  split <;> rfl

theorem storePeoplePut_eq (st : Store) (id : String) (body : Body) :
    storePeoplePut st id body =
      ((peoplePut st.people id body).1,
        { st with people := (peoplePut st.people id body).2 }) := by
  unfold storePeoplePut peoplePut
  dsimp only
  cases st.people.find? (fun p => looseEq p.id id) with
  | none => rfl
  | some _ =>
    dsimp only
    split <;> rfl

theorem storePeopleDelete_eq (st : Store) (id : String) :
    storePeopleDelete st id =
      ((peopleDelete st.people id).1, { st with people := (peopleDelete st.people id).2 }) := by
  unfold storePeopleDelete peopleDelete
  dsimp only
  split <;> rfl

theorem storeProjectsGetAll_eq (st : Store) :
    storeProjectsGetAll st =
      ((projectsGetAll st.projects).1,
        { st with projects := (projectsGetAll st.projects).2 }) := rfl

theorem storeProjectsGet_eq (st : Store) (id : String) :
    storeProjectsGet st id =
      ((projectsGet st.projects id).1,
        { st with projects := (projectsGet st.projects id).2 }) := by
  unfold storeProjectsGet projectsGet
  cases st.projects.find? (fun p => strictEq p.id (parseInt id)) <;> rfl

theorem storeProjectsPost_eq (st : Store) (body : Body) :
    storeProjectsPost st body =
      ((projectsPost st.projects body).1,
        { st with projects := (projectsPost st.projects body).2 }) := by
  unfold storeProjectsPost projectsPost
  dsimp only
  split <;> rfl

theorem storeProjectsPut_eq (st : Store) (id : String) (body : Body) :
    storeProjectsPut st id body =
      ((projectsPut st.projects id body).1,
        { st with projects := (projectsPut st.projects id body).2 }) := by
  unfold storeProjectsPut projectsPut
  dsimp only
  cases st.projects.find? (fun p => strictEq p.id (parseInt id)) with
  | none => rfl
  | some _ =>
    dsimp only
    split <;> rfl

theorem storeProjectsDelete_eq (st : Store) (id : String) :
    storeProjectsDelete st id =
      ((projectsDelete st.projects id).1,
        { st with projects := (projectsDelete st.projects id).2 }) := by
  unfold storeProjectsDelete projectsDelete
  dsimp only
  cases st.projects.findIdx? (fun p => strictEq p.id (parseInt id)) <;> rfl

theorem storeTasksGetAll_eq (st : Store) :
    storeTasksGetAll st =
      ((tasksGetAll st.tasks).1, { st with tasks := (tasksGetAll st.tasks).2 }) := rfl

theorem storeTasksGet_eq (st : Store) (id : String) :
    storeTasksGet st id =
      ((tasksGet st.tasks id).1, { st with tasks := (tasksGet st.tasks id).2 }) := by
  unfold storeTasksGet tasksGet
  cases st.tasks.find? (fun t => strictEq t.id (parseInt id)) <;> rfl

theorem storeTasksPost_eq (st : Store) (body : Body) :
    storeTasksPost st body =
      ((tasksPost st.tasks body).1, { st with tasks := (tasksPost st.tasks body).2 }) := by
  unfold storeTasksPost tasksPost
  dsimp only
  split <;> rfl

theorem storeTasksPut_eq (st : Store) (id : String) (body : Body) :
    storeTasksPut st id body =
      ((tasksPut st.tasks id body).1, { st with tasks := (tasksPut st.tasks id body).2 }) := by
  unfold storeTasksPut tasksPut
  dsimp only
  cases st.tasks.find? (fun t => strictEq t.id (parseInt id)) with
  | none => rfl
  | some _ =>
    dsimp only
    split <;> rfl

theorem storeTasksDelete_eq (st : Store) (id : String) :
    storeTasksDelete st id =
      ((tasksDelete st.tasks id).1, { st with tasks := (tasksDelete st.tasks id).2 }) := by
  unfold storeTasksDelete tasksDelete
  dsimp only
  split <;> rfl

/-- A request on `/api/v1/people` is answered as the people handlers answer it on the
people collection, and leaves projects and tasks as they were. -/
theorem handle_people (st : Store) (r : Request) :
    handle st (.people r) =
      ((peopleHandle st.people r).1, { st with people := (peopleHandle st.people r).2 }) := by
  cases r with
  | getAll => exact storePeopleGetAll_eq st
  | get id => exact storePeopleGet_eq st id
  | post body => exact storePeoplePost_eq st body
  | put id body => exact storePeoplePut_eq st id body
  | delete id => exact storePeopleDelete_eq st id

/-- A request on `/api/v1/projects` is answered as the project handlers answer it on the
projects collection, and leaves people and tasks as they were. -/
theorem handle_projects (st : Store) (r : Request) :
    handle st (.projects r) =
      ((projectsHandle st.projects r).1,
        { st with projects := (projectsHandle st.projects r).2 }) := by
  cases r with
  | getAll => exact storeProjectsGetAll_eq st
  | get id => exact storeProjectsGet_eq st id
  | post body => exact storeProjectsPost_eq st body
  | put id body => exact storeProjectsPut_eq st id body
  | delete id => exact storeProjectsDelete_eq st id

/-- A request on `/api/v1/tasks` is answered as the task handlers answer it on the tasks
collection, and leaves people and projects as they were. -/
theorem handle_tasks (st : Store) (r : Request) :
    handle st (.tasks r) =
      ((tasksHandle st.tasks r).1, { st with tasks := (tasksHandle st.tasks r).2 }) := by
  cases r with
  | getAll => exact storeTasksGetAll_eq st
  | get id => exact storeTasksGet_eq st id
  | post body => exact storeTasksPost_eq st body
  | put id body => exact storeTasksPut_eq st id body
  | delete id => exact storeTasksDelete_eq st id

/-- On the seeded people the path `1.0000000000000000001` finds person 1 in all three
handlers: `==` converts it to the double `1`, and `parseInt` reads `1`. -/
theorem people_tiny_fraction_path_finds_one :
    (peopleGet people "1.0000000000000000001").1.status = 200 ∧
    (peoplePut people "1.0000000000000000001" []).1.status = 200 ∧
    (peopleDelete people "1.0000000000000000001").1.status = 200 := by
  obtain ⟨p, _, _, hget⟩ := peopleGet_present pathDenotes_one_with_tiny_fraction
    (by decide : (1 : Int) ∈ people.map Person.id)
  have hput := peoplePut_present pathDenotes_one_with_tiny_fraction
    (by decide : (1 : Int) ∈ people.map Person.id) []
  refine ⟨by rw [hget], by rw [hput], by decide⟩

/-! ## Claims -/

/-- Claim C1. In every state of a collection reachable from its seeded state, a valid create
request (every required field truthy) appends a record whose id is the greatest id present
before the request plus one, or `1` if the collection was empty. Stated for people,
projects and tasks. -/
theorem create_id_is_max_plus_one :
    (∀ (ps : List Person) (body : Body), Reachable peopleHandle people ps →
      body.hasAll ["name", "email", "role"] →
      ∃ r : Person, (peoplePost ps body).2 = ps ++ [r] ∧
        r.id = maxIdPlusOne (ps.map Person.id)) ∧
    (∀ (ps : List Project) (body : Body), Reachable projectsHandle projects ps →
      body.hasAll ["name", "description"] →
      ∃ r : Project, (projectsPost ps body).2 = ps ++ [r] ∧
        r.id = maxIdPlusOne (ps.map Project.id)) ∧
    (∀ (ts : List Task) (body : Body), Reachable tasksHandle tasks ts →
      body.hasAll ["title", "description", "projectId"] →
      ∃ r : Task, (tasksPost ts body).2 = ts ++ [r] ∧
        r.id = maxIdPlusOne (ts.map Task.id)) := by
  refine ⟨?_, ?_, ?_⟩
  · intro ps body hr hb
    simp only [Body.hasAll, List.mem_cons, List.mem_singleton, forall_eq_or_imp, forall_eq,
      List.not_mem_nil, false_implies, implies_true, and_true] at hb
    obtain ⟨h1, h2, h3⟩ := hb
    refine ⟨_, by simp only [peoplePost, h1, h2, h3]; rfl, ?_⟩
    rw [← nextId_eq_maxIdPlusOne Person.id hr.people_ids_ascending]
    unfold nextId
    cases ps.getLast? <;> rfl
  · intro ps body hr hb
    simp only [Body.hasAll, List.mem_cons, List.mem_singleton, forall_eq_or_imp, forall_eq,
      List.not_mem_nil, false_implies, implies_true, and_true] at hb
    obtain ⟨h1, h2⟩ := hb
    refine ⟨_, by simp only [projectsPost, h1, h2]; rfl, ?_⟩
    rw [← nextId_eq_maxIdPlusOne Project.id hr.projects_ids_ascending]
    unfold nextId
    cases ps.getLast? <;> rfl
  · intro ts body hr hb
    simp only [Body.hasAll, List.mem_cons, List.mem_singleton, forall_eq_or_imp, forall_eq,
      List.not_mem_nil, false_implies, implies_true, and_true] at hb
    obtain ⟨h1, h2, h3⟩ := hb
    refine ⟨_, by simp only [tasksPost, h1, h2, h3]; rfl, ?_⟩
    rw [← nextId_eq_maxIdPlusOne Task.id hr.tasks_ids_ascending]
    unfold nextId
    cases ts.getLast? <;> rfl

/-- Instance of C1: on the people list reached by deleting person 2, on the seeded
projects and on the seeded tasks. -/
theorem create_id_is_max_plus_one_witness :
    (Reachable peopleHandle people (peopleHandle people (.delete "2")).2 ∧
      annBody.hasAll ["name", "email", "role"] ∧
      ∃ r : Person, (peoplePost (peopleHandle people (.delete "2")).2 annBody).2 =
          (peopleHandle people (.delete "2")).2 ++ [r] ∧
        r.id = maxIdPlusOne ((peopleHandle people (.delete "2")).2.map Person.id)) ∧
    (Reachable projectsHandle projects projects ∧ webBody.hasAll ["name", "description"] ∧
      ∃ r : Project, (projectsPost projects webBody).2 = projects ++ [r] ∧
        r.id = maxIdPlusOne (projects.map Project.id)) ∧
    (Reachable tasksHandle tasks tasks ∧
      doneBody.hasAll ["title", "description", "projectId"] ∧
      ∃ r : Task, (tasksPost tasks doneBody).2 = tasks ++ [r] ∧
        r.id = maxIdPlusOne (tasks.map Task.id)) :=
  ⟨⟨Reachable.step Reachable.seed _, by decide,
      create_id_is_max_plus_one.1 _ annBody (Reachable.step Reachable.seed _) (by decide)⟩,
    ⟨Reachable.seed, by decide,
      create_id_is_max_plus_one.2.1 projects webBody Reachable.seed (by decide)⟩,
    ⟨Reachable.seed, by decide,
      create_id_is_max_plus_one.2.2 tasks doneBody Reachable.seed (by decide)⟩⟩

/-- Claim C2. In every state of a collection reachable from its seeded state by any sequence
of requests, accepted or rejected, no two records have the same id. Stated for people,
projects and tasks. -/
theorem ids_unique_when_reachable :
    (∀ ps : List Person, Reachable peopleHandle people ps → (ps.map Person.id).Nodup) ∧
    (∀ ps : List Project, Reachable projectsHandle projects ps →
      (ps.map Project.id).Nodup) ∧
    (∀ ts : List Task, Reachable tasksHandle tasks ts → (ts.map Task.id).Nodup) :=
  ⟨fun _ h => h.people_ids_ascending.nodup Person.id,
    fun _ h => h.projects_ids_ascending.nodup Project.id,
    fun _ h => h.tasks_ids_ascending.nodup Task.id⟩

/-- Instance of C2: after a delete of the last record followed by a create, in each
collection. -/
theorem ids_unique_when_reachable_witness :
    (Reachable peopleHandle people
        (peopleHandle (peopleHandle people (.delete "2")).2 (.post annBody)).2 ∧
      ((peopleHandle (peopleHandle people (.delete "2")).2 (.post annBody)).2.map
        Person.id).Nodup) ∧
    (Reachable projectsHandle projects
        (projectsHandle (projectsHandle projects (.delete "1")).2 (.post webBody)).2 ∧
      ((projectsHandle (projectsHandle projects (.delete "1")).2 (.post webBody)).2.map
        Project.id).Nodup) ∧
    (Reachable tasksHandle tasks
        (tasksHandle (tasksHandle tasks (.delete "1")).2 (.post doneBody)).2 ∧
      ((tasksHandle (tasksHandle tasks (.delete "1")).2 (.post doneBody)).2.map
        Task.id).Nodup) :=
  ⟨⟨Reachable.step (Reachable.step Reachable.seed _) _,
      ids_unique_when_reachable.1 _ (Reachable.step (Reachable.step Reachable.seed _) _)⟩,
    ⟨Reachable.step (Reachable.step Reachable.seed _) _,
      ids_unique_when_reachable.2.1 _ (Reachable.step (Reachable.step Reachable.seed _) _)⟩,
    ⟨Reachable.step (Reachable.step Reachable.seed _) _,
      ids_unique_when_reachable.2.2 _ (Reachable.step (Reachable.step Reachable.seed _) _)⟩⟩

/-- Claim C3. In any state of a collection, for an integer id that no record has, Get,
Update and Delete on that id each answer 404 with a `message` body and leave the
collection unchanged. Stated for people, projects and tasks. -/
theorem absent_id_gives_404 :
    (∀ (ps : List Person) (s : String) (id : Int) (body : Body), PathDenotes s id →
      (∀ p ∈ ps, p.id ≠ id) →
      RejectedWith 404 ps (peopleGet ps s) ∧ RejectedWith 404 ps (peoplePut ps s body) ∧
        RejectedWith 404 ps (peopleDelete ps s)) ∧
    (∀ (ps : List Project) (s : String) (id : Int) (body : Body), PathDenotes s id →
      (∀ p ∈ ps, p.id ≠ id) →
      RejectedWith 404 ps (projectsGet ps s) ∧ RejectedWith 404 ps (projectsPut ps s body) ∧
        RejectedWith 404 ps (projectsDelete ps s)) ∧
    (∀ (ts : List Task) (s : String) (id : Int) (body : Body), PathDenotes s id →
      (∀ t ∈ ts, t.id ≠ id) →
      RejectedWith 404 ts (tasksGet ts s) ∧ RejectedWith 404 ts (tasksPut ts s body) ∧
        RejectedWith 404 ts (tasksDelete ts s)) := by
  refine ⟨?_, ?_, ?_⟩
  · intro ps s id body hs hne
    have hfind : ps.find? (fun p => looseEq p.id s) = none := by
      rw [List.find?_eq_none]
      intro p hp
      simp [looseEq_eq_decide hs, hne p hp]
    have hany : ps.any (fun p => strictEq p.id (parseInt s)) = false := by
      rw [List.any_eq_false]
      intro p hp
      simp [strictEq_eq_decide hs.1, hne p hp]
    refine ⟨?_, ?_, ?_⟩
    · simp only [peopleGet, hfind]
      exact ⟨rfl, rfl, rfl⟩
    · simp only [peoplePut, hfind]
      exact ⟨rfl, rfl, rfl⟩
    · simp only [peopleDelete, hany]
      exact ⟨rfl, rfl, rfl⟩
  · intro ps s id body hs hne
    have hfind : ps.find? (fun p => strictEq p.id (parseInt s)) = none := by
      rw [List.find?_eq_none]
      intro p hp
      simp [strictEq_eq_decide hs.1, hne p hp]
    have hidx : ps.findIdx? (fun p => strictEq p.id (parseInt s)) = none := by
      rw [List.findIdx?_eq_none_iff]
      intro p hp
      simp [strictEq_eq_decide hs.1, hne p hp]
    refine ⟨?_, ?_, ?_⟩
    · simp only [projectsGet, hfind]
      exact ⟨rfl, rfl, rfl⟩
    · simp only [projectsPut, hfind]
      exact ⟨rfl, rfl, rfl⟩
    · simp only [projectsDelete, hidx]
      exact ⟨rfl, rfl, rfl⟩
  · intro ts s id body hs hne
    have hfind : ts.find? (fun t => strictEq t.id (parseInt s)) = none := by
      rw [List.find?_eq_none]
      intro t ht
      simp [strictEq_eq_decide hs.1, hne t ht]
    have hany : ts.any (fun t => strictEq t.id (parseInt s)) = false := by
      rw [List.any_eq_false]
      intro t ht
      simp [strictEq_eq_decide hs.1, hne t ht]
    refine ⟨?_, ?_, ?_⟩
    · simp only [tasksGet, hfind]
      exact ⟨rfl, rfl, rfl⟩
    · simp only [tasksPut, hfind]
      exact ⟨rfl, rfl, rfl⟩
    · simp only [tasksDelete, hany]
      exact ⟨rfl, rfl, rfl⟩

/-- Instance of C3: id 9 on the seeded collections. -/
theorem absent_id_gives_404_witness :
    (PathDenotes "9" 9 ∧ (∀ p ∈ people, p.id ≠ 9) ∧
      RejectedWith 404 people (peopleGet people "9") ∧
      RejectedWith 404 people (peoplePut people "9" annBody) ∧
      RejectedWith 404 people (peopleDelete people "9")) ∧
    (PathDenotes "9" 9 ∧ (∀ p ∈ projects, p.id ≠ 9) ∧
      RejectedWith 404 projects (projectsGet projects "9") ∧
      RejectedWith 404 projects (projectsPut projects "9" webBody) ∧
      RejectedWith 404 projects (projectsDelete projects "9")) ∧
    (PathDenotes "9" 9 ∧ (∀ t ∈ tasks, t.id ≠ 9) ∧
      RejectedWith 404 tasks (tasksGet tasks "9") ∧
      RejectedWith 404 tasks (tasksPut tasks "9" doneBody) ∧
      RejectedWith 404 tasks (tasksDelete tasks "9")) :=
  ⟨⟨pathDenotes_nine, by decide,
      absent_id_gives_404.1 people "9" 9 annBody pathDenotes_nine (by decide)⟩,
    ⟨pathDenotes_nine, by decide,
      absent_id_gives_404.2.1 projects "9" 9 webBody pathDenotes_nine (by decide)⟩,
    ⟨pathDenotes_nine, by decide,
      absent_id_gives_404.2.2 tasks "9" 9 doneBody pathDenotes_nine (by decide)⟩⟩

/-- Claim C4. In any state of a collection, a create request in which some required field
(people: name, email, role; projects: name, description; tasks: title, description,
projectId) is absent, empty or otherwise falsy is answered 400 with a `message` body, and
the collection is unchanged. -/
theorem create_missing_field_gives_400 :
    (∀ (ps : List Person) (body : Body), ¬ body.hasAll ["name", "email", "role"] →
      RejectedWith 400 ps (peoplePost ps body)) ∧
    (∀ (ps : List Project) (body : Body), ¬ body.hasAll ["name", "description"] →
      RejectedWith 400 ps (projectsPost ps body)) ∧
    (∀ (ts : List Task) (body : Body), ¬ body.hasAll ["title", "description", "projectId"] →
      RejectedWith 400 ts (tasksPost ts body)) := by
  refine ⟨?_, ?_, ?_⟩
  · intro ps body hb
    have hc : (!(body.field "name").truthy || !(body.field "email").truthy ||
        !(body.field "role").truthy) = true := by
      simp only [Body.hasAll, List.mem_cons, List.mem_singleton, forall_eq_or_imp, forall_eq,
        List.not_mem_nil, false_implies, implies_true, and_true] at hb
      revert hb
      cases (body.field "name").truthy <;> cases (body.field "email").truthy <;>
        cases (body.field "role").truthy <;> simp
    simp only [peoplePost, hc]
    exact ⟨rfl, rfl, rfl⟩
  · intro ps body hb
    have hc : (!(body.field "name").truthy || !(body.field "description").truthy) = true := by
      simp only [Body.hasAll, List.mem_cons, List.mem_singleton, forall_eq_or_imp, forall_eq,
        List.not_mem_nil, false_implies, implies_true, and_true] at hb
      revert hb
      cases (body.field "name").truthy <;> cases (body.field "description").truthy <;> simp
    simp only [projectsPost, hc]
    exact ⟨rfl, rfl, rfl⟩
  · intro ts body hb
    have hc : (!(body.field "title").truthy || !(body.field "description").truthy ||
        !(body.field "projectId").truthy) = true := by
      simp only [Body.hasAll, List.mem_cons, List.mem_singleton, forall_eq_or_imp, forall_eq,
        List.not_mem_nil, false_implies, implies_true, and_true] at hb
      revert hb
      cases (body.field "title").truthy <;> cases (body.field "description").truthy <;>
        cases (body.field "projectId").truthy <;> simp
    simp only [tasksPost, hc]
    exact ⟨rfl, rfl, rfl⟩

/-- Instance of C4: an empty email for people, the empty body for projects, and the body
`{ title: "X" }` for tasks, on the seeded collections. -/
theorem create_missing_field_gives_400_witness :
    (¬ blankEmailBody.hasAll ["name", "email", "role"] ∧
      RejectedWith 400 people (peoplePost people blankEmailBody)) ∧
    (¬ Body.hasAll [] ["name", "description"] ∧
      RejectedWith 400 projects (projectsPost projects [])) ∧
    (¬ titleOnlyBody.hasAll ["title", "description", "projectId"] ∧
      RejectedWith 400 tasks (tasksPost tasks titleOnlyBody)) :=
  ⟨⟨by decide, create_missing_field_gives_400.1 people blankEmailBody (by decide)⟩,
    ⟨by decide, create_missing_field_gives_400.2.1 projects [] (by decide)⟩,
    ⟨by decide, create_missing_field_gives_400.2.2 tasks titleOnlyBody (by decide)⟩⟩

/-- Claim C5. In any state of a collection, a valid create request (every required field
truthy) is answered 201 and the collection afterwards is the collection before with one
record appended at the end: earlier records unchanged and in order, length one more, the
new record holding the body's values of the fields the handler takes (a task's
`assignedTo` is the body's value when truthy and `null` otherwise). From the seeded people
list, creating Ann gives a 3-entry list whose last record has id 3. -/
theorem valid_create_appends_record :
    (∀ (ps : List Person) (body : Body), body.hasAll ["name", "email", "role"] →
      (peoplePost ps body).1.status = 201 ∧
      (peoplePost ps body).2.length = ps.length + 1 ∧
      ∃ r : Person, (peoplePost ps body).2 = ps ++ [r] ∧ r.name = body.field "name" ∧
        r.email = body.field "email" ∧ r.role = body.field "role") ∧
    (∀ (ps : List Project) (body : Body), body.hasAll ["name", "description"] →
      (projectsPost ps body).1.status = 201 ∧
      (projectsPost ps body).2.length = ps.length + 1 ∧
      ∃ r : Project, (projectsPost ps body).2 = ps ++ [r] ∧ r.name = body.field "name" ∧
        r.description = body.field "description") ∧
    (∀ (ts : List Task) (body : Body), body.hasAll ["title", "description", "projectId"] →
      (tasksPost ts body).1.status = 201 ∧
      (tasksPost ts body).2.length = ts.length + 1 ∧
      ∃ r : Task, (tasksPost ts body).2 = ts ++ [r] ∧ r.title = body.field "title" ∧
        r.description = body.field "description" ∧
        r.projectId = body.field "projectId" ∧
        r.assignedTo = if (body.field "assignedTo").truthy then body.field "assignedTo"
          else JSValue.null) ∧
    ((peoplePost people annBody).1.status = 201 ∧
      (peoplePost people annBody).2.length = 3 ∧
      (peoplePost people annBody).2.getLast?.map Person.id = some 3) := by
  refine ⟨?_, ?_, ?_, ⟨rfl, rfl, rfl⟩⟩
  · intro ps body hb
    simp only [Body.hasAll, List.mem_cons, List.mem_singleton, forall_eq_or_imp, forall_eq,
      List.not_mem_nil, false_implies, implies_true, and_true] at hb
    obtain ⟨h1, h2, h3⟩ := hb
    simp only [peoplePost, h1, h2, h3]
    exact ⟨rfl, by simp, _, rfl, rfl, rfl, rfl⟩
  · intro ps body hb
    simp only [Body.hasAll, List.mem_cons, List.mem_singleton, forall_eq_or_imp, forall_eq,
      List.not_mem_nil, false_implies, implies_true, and_true] at hb
    obtain ⟨h1, h2⟩ := hb
    simp only [projectsPost, h1, h2]
    exact ⟨rfl, by simp, _, rfl, rfl, rfl⟩
  · intro ts body hb
    simp only [Body.hasAll, List.mem_cons, List.mem_singleton, forall_eq_or_imp, forall_eq,
      List.not_mem_nil, false_implies, implies_true, and_true] at hb
    obtain ⟨h1, h2, h3⟩ := hb
    simp only [tasksPost, h1, h2, h3]
    exact ⟨rfl, by simp, _, rfl, rfl, rfl, rfl, rfl⟩

/-- Instance of C5: the bodies `annBody`, `webBody` and `doneBody` on the seeded
collections. -/
theorem valid_create_appends_record_witness :
    (annBody.hasAll ["name", "email", "role"] ∧
      (peoplePost people annBody).1.status = 201 ∧
      (peoplePost people annBody).2.length = people.length + 1 ∧
      ∃ r : Person, (peoplePost people annBody).2 = people ++ [r] ∧
        r.name = annBody.field "name" ∧ r.email = annBody.field "email" ∧
        r.role = annBody.field "role") ∧
    (webBody.hasAll ["name", "description"] ∧
      (projectsPost projects webBody).1.status = 201 ∧
      (projectsPost projects webBody).2.length = projects.length + 1 ∧
      ∃ r : Project, (projectsPost projects webBody).2 = projects ++ [r] ∧
        r.name = webBody.field "name" ∧ r.description = webBody.field "description") ∧
    (doneBody.hasAll ["title", "description", "projectId"] ∧
      (tasksPost tasks doneBody).1.status = 201 ∧
      (tasksPost tasks doneBody).2.length = tasks.length + 1 ∧
      ∃ r : Task, (tasksPost tasks doneBody).2 = tasks ++ [r] ∧
        r.title = doneBody.field "title" ∧ r.description = doneBody.field "description" ∧
        r.projectId = doneBody.field "projectId" ∧
        r.assignedTo = if (doneBody.field "assignedTo").truthy then
          doneBody.field "assignedTo" else JSValue.null) :=
  ⟨⟨by decide, valid_create_appends_record.1 people annBody (by decide)⟩,
    ⟨by decide, valid_create_appends_record.2.1 projects webBody (by decide)⟩,
    ⟨by decide, valid_create_appends_record.2.2.1 tasks doneBody (by decide)⟩⟩

/-- Claim C6. In any state of a collection, for any path id and any body, an Update leaves
the length and order of the collection as they were; the collection afterwards is either
the same, or the same except that the first record matching the id (the targeted one) has
its designated field (role for people, name for projects, status for tasks) set from the
body, every other field and every other record being unchanged. -/
theorem update_touches_designated_field_only :
    (∀ (ps : List Person) (s : String) (body : Body),
      (peoplePut ps s body).2.length = ps.length ∧
      ((peoplePut ps s body).2 = ps ∨
        ∃ l₁ p l₂, ps = l₁ ++ p :: l₂ ∧ (∀ q ∈ l₁, looseEq q.id s = false) ∧
          looseEq p.id s = true ∧
          (peoplePut ps s body).2 = l₁ ++ { p with role := body.field "role" } :: l₂)) ∧
    (∀ (ps : List Project) (s : String) (body : Body),
      (projectsPut ps s body).2.length = ps.length ∧
      ((projectsPut ps s body).2 = ps ∨
        ∃ l₁ p l₂, ps = l₁ ++ p :: l₂ ∧ (∀ q ∈ l₁, strictEq q.id (parseInt s) = false) ∧
          strictEq p.id (parseInt s) = true ∧
          (projectsPut ps s body).2 = l₁ ++ { p with name := body.field "name" } :: l₂)) ∧
    (∀ (ts : List Task) (s : String) (body : Body),
      (tasksPut ts s body).2.length = ts.length ∧
      ((tasksPut ts s body).2 = ts ∨
        ∃ l₁ t l₂, ts = l₁ ++ t :: l₂ ∧ (∀ q ∈ l₁, strictEq q.id (parseInt s) = false) ∧
          strictEq t.id (parseInt s) = true ∧
          (tasksPut ts s body).2 = l₁ ++ { t with status := body.field "status" } :: l₂)) := by
  refine ⟨?_, ?_, ?_⟩
  · intro ps s body
    simp only [peoplePut]
    split
    · exact ⟨rfl, Or.inl rfl⟩
    · dsimp only
      split
      · exact ⟨length_modifyFirst _ _ _, modifyFirst_cases _ _ _⟩
      · exact ⟨rfl, Or.inl rfl⟩
  · intro ps s body
    simp only [projectsPut]
    split
    · exact ⟨rfl, Or.inl rfl⟩
    · dsimp only
      split
      · exact ⟨length_modifyFirst _ _ _, modifyFirst_cases _ _ _⟩
      · exact ⟨rfl, Or.inl rfl⟩
  · intro ts s body
    simp only [tasksPut]
    split
    · exact ⟨rfl, Or.inl rfl⟩
    · dsimp only
      split
      · exact ⟨length_modifyFirst _ _ _, modifyFirst_cases _ _ _⟩
      · exact ⟨rfl, Or.inl rfl⟩

/-- Instance of C6: `PUT .../1` with `leadBody` on the seeded collections. -/
theorem update_touches_designated_field_only_witness :
    ((peoplePut people "1" leadBody).2.length = people.length ∧
      ((peoplePut people "1" leadBody).2 = people ∨
        ∃ l₁ p l₂, people = l₁ ++ p :: l₂ ∧ (∀ q ∈ l₁, looseEq q.id "1" = false) ∧
          looseEq p.id "1" = true ∧
          (peoplePut people "1" leadBody).2 =
            l₁ ++ { p with role := leadBody.field "role" } :: l₂)) ∧
    ((projectsPut projects "1" leadBody).2.length = projects.length ∧
      ((projectsPut projects "1" leadBody).2 = projects ∨
        ∃ l₁ p l₂, projects = l₁ ++ p :: l₂ ∧
          (∀ q ∈ l₁, strictEq q.id (parseInt "1") = false) ∧
          strictEq p.id (parseInt "1") = true ∧
          (projectsPut projects "1" leadBody).2 =
            l₁ ++ { p with name := leadBody.field "name" } :: l₂)) ∧
    ((tasksPut tasks "1" leadBody).2.length = tasks.length ∧
      ((tasksPut tasks "1" leadBody).2 = tasks ∨
        ∃ l₁ t l₂, tasks = l₁ ++ t :: l₂ ∧
          (∀ q ∈ l₁, strictEq q.id (parseInt "1") = false) ∧
          strictEq t.id (parseInt "1") = true ∧
          (tasksPut tasks "1" leadBody).2 =
            l₁ ++ { t with status := leadBody.field "status" } :: l₂)) :=
  ⟨update_touches_designated_field_only.1 people "1" leadBody,
    update_touches_designated_field_only.2.1 projects "1" leadBody,
    update_touches_designated_field_only.2.2 tasks "1" leadBody⟩

/-- Claim C7. In any tasks state, a valid task create request appends a record whose status
is `"todo"`, whatever `status` the body carries. -/
theorem task_create_status_is_todo (ts : List Task) (body : Body)
    (hb : body.hasAll ["title", "description", "projectId"]) :
    ∃ t : Task, (tasksPost ts body).2 = ts ++ [t] ∧ t.status = JSValue.string "todo" := by
  simp only [Body.hasAll, List.mem_cons, List.mem_singleton, forall_eq_or_imp, forall_eq,
    List.not_mem_nil, false_implies, implies_true, and_true] at hb
  obtain ⟨h1, h2, h3⟩ := hb
  simp only [tasksPost, h1, h2, h3]
  exact ⟨_, rfl, rfl⟩

/-- Instance of C7: a body that carries `status: "done"`, on the seeded tasks. -/
theorem task_create_status_is_todo_witness :
    doneBody.field "status" = JSValue.string "done" ∧
    doneBody.hasAll ["title", "description", "projectId"] ∧
    ∃ t : Task, (tasksPost tasks doneBody).2 = tasks ++ [t] ∧
      t.status = JSValue.string "todo" :=
  ⟨rfl, by decide, task_create_status_is_todo tasks doneBody (by decide)⟩

/-- Claim C8. In any state of the application, whatever the projects collection holds, a
task create request whose title, description and projectId are truthy and whose
`assignedTo` is omitted is answered 201 (not 400), and the record appended to the tasks
has `assignedTo` equal to `null`; people and projects are not touched. -/
theorem task_create_without_assignee (st : Store) (body : Body)
    (hb : body.hasAll ["title", "description", "projectId"])
    (ha : body.lookup "assignedTo" = none) :
    (handle st (.tasks (.post body))).1.status = 201 ∧
    (handle st (.tasks (.post body))).2.projects = st.projects ∧
    (handle st (.tasks (.post body))).2.people = st.people ∧
    ∃ t : Task, (handle st (.tasks (.post body))).2.tasks = st.tasks ++ [t] ∧
      t.projectId = body.field "projectId" ∧ t.assignedTo = JSValue.null := by
  simp only [Body.hasAll, List.mem_cons, List.mem_singleton, forall_eq_or_imp, forall_eq,
    List.not_mem_nil, false_implies, implies_true, and_true] at hb
  obtain ⟨h1, h2, h3⟩ := hb
  have h4 : (body.field "assignedTo").truthy = false := by
    simp [Body.field, ha, JSValue.truthy]
  have hpost : storeTasksPost st body =
      (⟨201, messageBody "Tarea creada"⟩,
        { st with tasks := (st.tasks ++ [Task.mk (nextId Task.id st.tasks)
          (body.field "title") (body.field "description") (JSValue.string "todo")
          (body.field "projectId") JSValue.null]) }) := by
    simp only [storeTasksPost, h1, h2, h3, h4]
    unfold nextId
    cases st.tasks.getLast? <;> rfl
  have hroute : handle st (.tasks (.post body)) = storeTasksPost st body := rfl
  rw [hroute, hpost]
  exact ⟨rfl, rfl, rfl, Task.mk (nextId Task.id st.tasks) (body.field "title")
    (body.field "description") (JSValue.string "todo") (body.field "projectId")
    JSValue.null, rfl, rfl, rfl⟩

/-- Instance of C8: project id 7 while the projects collection is empty. -/
theorem task_create_without_assignee_witness :
    plainTaskBody.hasAll ["title", "description", "projectId"] ∧
    plainTaskBody.lookup "assignedTo" = none ∧
    (handle noProjectsStore (.tasks (.post plainTaskBody))).1.status = 201 ∧
    (handle noProjectsStore (.tasks (.post plainTaskBody))).2.projects =
      noProjectsStore.projects ∧
    (handle noProjectsStore (.tasks (.post plainTaskBody))).2.people =
      noProjectsStore.people ∧
    ∃ t : Task, (handle noProjectsStore (.tasks (.post plainTaskBody))).2.tasks =
        noProjectsStore.tasks ++ [t] ∧
      t.projectId = plainTaskBody.field "projectId" ∧ t.assignedTo = JSValue.null :=
  ⟨by decide, rfl, task_create_without_assignee noProjectsStore plainTaskBody (by decide) rfl⟩

/-- Claim C9. In every state of a collection reachable from its seeded state, for every id
present in it, Delete of that id is answered 200 and removes exactly the record with that
id: the collection afterwards is the one before with that single record left out, the
other records unchanged and in their order, and the length one less. Stated for people
and tasks (`filter`) and for projects (`findIndex` and `splice`). -/
theorem delete_removes_exactly_one :
    (∀ (ps : List Person) (s : String) (id : Int), Reachable peopleHandle people ps →
      id ∈ ps.map Person.id → parseInt s = some id →
      (peopleDelete ps s).1.status = 200 ∧
        RemovesOnly Person.id id ps (peopleDelete ps s).2 ∧
        (peopleDelete ps s).2.length + 1 = ps.length) ∧
    (∀ (ps : List Project) (s : String) (id : Int), Reachable projectsHandle projects ps →
      id ∈ ps.map Project.id → parseInt s = some id →
      (projectsDelete ps s).1.status = 200 ∧
        RemovesOnly Project.id id ps (projectsDelete ps s).2 ∧
        (projectsDelete ps s).2.length + 1 = ps.length) ∧
    (∀ (ts : List Task) (s : String) (id : Int), Reachable tasksHandle tasks ts →
      id ∈ ts.map Task.id → parseInt s = some id →
      (tasksDelete ts s).1.status = 200 ∧
        RemovesOnly Task.id id ts (tasksDelete ts s).2 ∧
        (tasksDelete ts s).2.length + 1 = ts.length) := by
  refine ⟨?_, ?_, ?_⟩
  · intro ps s id hr hid hs
    have h := peopleDelete_present (hr.people_ids_ascending.nodup Person.id) hs hid
    exact ⟨h.1, h.2, h.2.length⟩
  · intro ps s id hr hid hs
    have h := projectsDelete_present (hr.projects_ids_ascending.nodup Project.id) hs hid
    exact ⟨h.1, h.2, h.2.length⟩
  · intro ts s id hr hid hs
    have h := tasksDelete_present (hr.tasks_ids_ascending.nodup Task.id) hs hid
    exact ⟨h.1, h.2, h.2.length⟩

/-- Instance of C9: after one more record is created in each seeded collection, delete of
id 2 (people) and of id 1 (projects, tasks). -/
theorem delete_removes_exactly_one_witness :
    (Reachable peopleHandle people (peopleHandle people (.post annBody)).2 ∧
      (2 : Int) ∈ (peopleHandle people (.post annBody)).2.map Person.id ∧
      parseInt "2" = some 2 ∧
      (peopleDelete (peopleHandle people (.post annBody)).2 "2").1.status = 200 ∧
      RemovesOnly Person.id 2 (peopleHandle people (.post annBody)).2
        (peopleDelete (peopleHandle people (.post annBody)).2 "2").2 ∧
      (peopleDelete (peopleHandle people (.post annBody)).2 "2").2.length + 1 =
        (peopleHandle people (.post annBody)).2.length) ∧
    (Reachable projectsHandle projects (projectsHandle projects (.post webBody)).2 ∧
      (1 : Int) ∈ (projectsHandle projects (.post webBody)).2.map Project.id ∧
      parseInt "1" = some 1 ∧
      (projectsDelete (projectsHandle projects (.post webBody)).2 "1").1.status = 200 ∧
      RemovesOnly Project.id 1 (projectsHandle projects (.post webBody)).2
        (projectsDelete (projectsHandle projects (.post webBody)).2 "1").2 ∧
      (projectsDelete (projectsHandle projects (.post webBody)).2 "1").2.length + 1 =
        (projectsHandle projects (.post webBody)).2.length) ∧
    (Reachable tasksHandle tasks (tasksHandle tasks (.post doneBody)).2 ∧
      (1 : Int) ∈ (tasksHandle tasks (.post doneBody)).2.map Task.id ∧
      parseInt "1" = some 1 ∧
      (tasksDelete (tasksHandle tasks (.post doneBody)).2 "1").1.status = 200 ∧
      RemovesOnly Task.id 1 (tasksHandle tasks (.post doneBody)).2
        (tasksDelete (tasksHandle tasks (.post doneBody)).2 "1").2 ∧
      (tasksDelete (tasksHandle tasks (.post doneBody)).2 "1").2.length + 1 =
        (tasksHandle tasks (.post doneBody)).2.length) :=
  ⟨⟨Reachable.step Reachable.seed _, by decide, by decide,
      delete_removes_exactly_one.1 _ "2" 2 (Reachable.step Reachable.seed _) (by decide)
        (by decide)⟩,
    ⟨Reachable.step Reachable.seed _, by decide, by decide,
      delete_removes_exactly_one.2.1 _ "1" 1 (Reachable.step Reachable.seed _) (by decide)
        (by decide)⟩,
    ⟨Reachable.step Reachable.seed _, by decide, by decide,
      delete_removes_exactly_one.2.2 _ "1" 1 (Reachable.step Reachable.seed _) (by decide)
        (by decide)⟩⟩

/-- Claim C10. In every state of a collection reachable from its seeded state, for every id
present in it, Delete of that id is answered 200 and a Get of the same id on the
collection it leaves is answered 404. Deleting task 1 from the seeded tasks and then
getting task 1 is the instance given last. -/
theorem get_after_delete_gives_404 :
    (∀ (ps : List Person) (s₁ s₂ : String) (id : Int), Reachable peopleHandle people ps →
      id ∈ ps.map Person.id → PathDenotes s₁ id → PathDenotes s₂ id →
      (peopleDelete ps s₁).1.status = 200 ∧
        (peopleGet (peopleDelete ps s₁).2 s₂).1.status = 404) ∧
    (∀ (ps : List Project) (s₁ s₂ : String) (id : Int),
      Reachable projectsHandle projects ps →
      id ∈ ps.map Project.id → PathDenotes s₁ id → PathDenotes s₂ id →
      (projectsDelete ps s₁).1.status = 200 ∧
        (projectsGet (projectsDelete ps s₁).2 s₂).1.status = 404) ∧
    (∀ (ts : List Task) (s₁ s₂ : String) (id : Int), Reachable tasksHandle tasks ts →
      id ∈ ts.map Task.id → PathDenotes s₁ id → PathDenotes s₂ id →
      (tasksDelete ts s₁).1.status = 200 ∧
        (tasksGet (tasksDelete ts s₁).2 s₂).1.status = 404) ∧
    ((tasksDelete tasks "1").1.status = 200 ∧
      (tasksGet (tasksDelete tasks "1").2 "1").1.status = 404) := by
  refine ⟨?_, ?_, ?_, ⟨by decide, by decide⟩⟩
  · intro ps s₁ s₂ id hr hid h₁ h₂
    have h := peopleDelete_present (hr.people_ids_ascending.nodup Person.id) h₁.1 hid
    exact ⟨h.1, peopleGet_absent h₂ h.2.absent⟩
  · intro ps s₁ s₂ id hr hid h₁ h₂
    have h := projectsDelete_present (hr.projects_ids_ascending.nodup Project.id) h₁.1 hid
    exact ⟨h.1, projectsGet_absent h₂ h.2.absent⟩
  · intro ts s₁ s₂ id hr hid h₁ h₂
    have h := tasksDelete_present (hr.tasks_ids_ascending.nodup Task.id) h₁.1 hid
    exact ⟨h.1, tasksGet_absent h₂ h.2.absent⟩

/-- Instance of C10: id 1 on the seeded people, projects and tasks. -/
theorem get_after_delete_gives_404_witness :
    (Reachable peopleHandle people people ∧ (1 : Int) ∈ people.map Person.id ∧
      PathDenotes "1" 1 ∧ (peopleDelete people "1").1.status = 200 ∧
      (peopleGet (peopleDelete people "1").2 "1").1.status = 404) ∧
    (Reachable projectsHandle projects projects ∧ (1 : Int) ∈ projects.map Project.id ∧
      PathDenotes "1" 1 ∧ (projectsDelete projects "1").1.status = 200 ∧
      (projectsGet (projectsDelete projects "1").2 "1").1.status = 404) ∧
    (Reachable tasksHandle tasks tasks ∧ (1 : Int) ∈ tasks.map Task.id ∧
      PathDenotes "1" 1 ∧ (tasksDelete tasks "1").1.status = 200 ∧
      (tasksGet (tasksDelete tasks "1").2 "1").1.status = 404) :=
  ⟨⟨Reachable.seed, by decide, pathDenotes_one,
      get_after_delete_gives_404.1 people "1" "1" 1 Reachable.seed (by decide)
        pathDenotes_one pathDenotes_one⟩,
    ⟨Reachable.seed, by decide, pathDenotes_one,
      get_after_delete_gives_404.2.1 projects "1" "1" 1 Reachable.seed (by decide)
        pathDenotes_one pathDenotes_one⟩,
    ⟨Reachable.seed, by decide, pathDenotes_one,
      get_after_delete_gives_404.2.2.1 tasks "1" "1" 1 Reachable.seed (by decide)
        pathDenotes_one pathDenotes_one⟩⟩

/-- Claim C11. In a collection that holds exactly one record, whatever its id, deleting
that record (answered 200, leaving the collection empty) and then making a valid create
request stores the new record with id 1. Stated for people, projects and tasks. -/
theorem delete_only_record_then_create_gives_one :
    (∀ (r : Person) (s : String) (body : Body), parseInt s = some r.id →
      body.hasAll ["name", "email", "role"] →
      (peopleDelete [r] s).1.status = 200 ∧
      ∃ x : Person, (peoplePost (peopleDelete [r] s).2 body).2 = [x] ∧ x.id = 1) ∧
    (∀ (r : Project) (s : String) (body : Body), parseInt s = some r.id →
      body.hasAll ["name", "description"] →
      (projectsDelete [r] s).1.status = 200 ∧
      ∃ x : Project, (projectsPost (projectsDelete [r] s).2 body).2 = [x] ∧ x.id = 1) ∧
    (∀ (r : Task) (s : String) (body : Body), parseInt s = some r.id →
      body.hasAll ["title", "description", "projectId"] →
      (tasksDelete [r] s).1.status = 200 ∧
      ∃ x : Task, (tasksPost (tasksDelete [r] s).2 body).2 = [x] ∧ x.id = 1) := by
  refine ⟨?_, ?_, ?_⟩
  · intro r s body hs hb
    rw [peopleDelete_single r hs, peoplePost_valid [] hb]
    exact ⟨rfl, _, rfl, rfl⟩
  · intro r s body hs hb
    rw [projectsDelete_single r hs, projectsPost_valid [] hb]
    exact ⟨rfl, _, rfl, rfl⟩
  · intro r s body hs hb
    rw [tasksDelete_single r hs, tasksPost_valid [] hb]
    exact ⟨rfl, _, rfl, rfl⟩

/-- Instance of C11: a people collection whose only record has id 7, and the seeded
projects and tasks. -/
theorem delete_only_record_then_create_gives_one_witness :
    (parseInt "7" = some 7 ∧ annBody.hasAll ["name", "email", "role"] ∧
      (peopleDelete soloPeople "7").1.status = 200 ∧
      ∃ x : Person, (peoplePost (peopleDelete soloPeople "7").2 annBody).2 = [x] ∧
        x.id = 1) ∧
    (parseInt "1" = some 1 ∧ webBody.hasAll ["name", "description"] ∧
      (projectsDelete projects "1").1.status = 200 ∧
      ∃ x : Project, (projectsPost (projectsDelete projects "1").2 webBody).2 = [x] ∧
        x.id = 1) ∧
    (parseInt "1" = some 1 ∧ doneBody.hasAll ["title", "description", "projectId"] ∧
      (tasksDelete tasks "1").1.status = 200 ∧
      ∃ x : Task, (tasksPost (tasksDelete tasks "1").2 doneBody).2 = [x] ∧ x.id = 1) :=
  ⟨⟨by decide, by decide,
      delete_only_record_then_create_gives_one.1 _ "7" annBody (by decide) (by decide)⟩,
    ⟨by decide, by decide,
      delete_only_record_then_create_gives_one.2.1 _ "1" webBody (by decide) (by decide)⟩,
    ⟨by decide, by decide,
      delete_only_record_then_create_gives_one.2.2 _ "1" doneBody (by decide) (by decide)⟩⟩

/-- Counterexample to C12 as stated: on the seeded people, `PUT /people/1` with the body
`{ role: "" }` provides a value for `role` and is answered 200, yet the record with id 1
keeps its role `"Dev"` and the collection is unchanged. -/
theorem update_with_empty_role_keeps_role :
    PathDenotes "1" 1 ∧ (1 : Int) ∈ people.map Person.id ∧
    blankRoleBody.lookup "role" = some (JSValue.string "") ∧
    (peoplePut people "1" blankRoleBody).1.status = 200 ∧
    (peoplePut people "1" blankRoleBody).2 = people ∧
    ¬ (∀ p ∈ (peoplePut people "1" blankRoleBody).2, p.id = 1 → p.role = JSValue.string "") := by
  have hput := peoplePut_present pathDenotes_one (by decide : (1 : Int) ∈ people.map Person.id)
    blankRoleBody
  have hfalsy : (blankRoleBody.field "role").truthy = false := by decide
  rw [hfalsy] at hput
  refine ⟨pathDenotes_one, by decide, rfl, by rw [hput], by rw [hput]; rfl, ?_⟩
  rw [hput]
  intro h
  have := h ⟨1, .string "James", .string "j@correo.com", .string "Dev"⟩ (by simp [people]) rfl
  simp at this


/-- Claim C12, amended. In any state of a collection, for an id present in it, an Update
is answered 200; when the body's value for the designated field (role / name / status) is
truthy, the first record with that id (the only one when ids are distinct) afterwards
holds exactly that value in that field, the rest of the collection being as before; when
the value is falsy (`null`, `false`, `0`, `""`, or absent) the collection is unchanged. -/
theorem update_sets_truthy_value :
    (∀ (ps : List Person) (s : String) (id : Int) (body : Body), PathDenotes s id →
      id ∈ ps.map Person.id →
      (peoplePut ps s body).1.status = 200 ∧
      ((body.field "role").truthy = true →
        ∃ l₁ p l₂, ps = l₁ ++ p :: l₂ ∧ p.id = id ∧ (∀ q ∈ l₁, q.id ≠ id) ∧
          (peoplePut ps s body).2 = l₁ ++ { p with role := body.field "role" } :: l₂) ∧
      ((body.field "role").truthy = false → (peoplePut ps s body).2 = ps)) ∧
    (∀ (ps : List Project) (s : String) (id : Int) (body : Body), PathDenotes s id →
      id ∈ ps.map Project.id →
      (projectsPut ps s body).1.status = 200 ∧
      ((body.field "name").truthy = true →
        ∃ l₁ p l₂, ps = l₁ ++ p :: l₂ ∧ p.id = id ∧ (∀ q ∈ l₁, q.id ≠ id) ∧
          (projectsPut ps s body).2 = l₁ ++ { p with name := body.field "name" } :: l₂) ∧
      ((body.field "name").truthy = false → (projectsPut ps s body).2 = ps)) ∧
    (∀ (ts : List Task) (s : String) (id : Int) (body : Body), PathDenotes s id →
      id ∈ ts.map Task.id →
      (tasksPut ts s body).1.status = 200 ∧
      ((body.field "status").truthy = true →
        ∃ l₁ t l₂, ts = l₁ ++ t :: l₂ ∧ t.id = id ∧ (∀ q ∈ l₁, q.id ≠ id) ∧
          (tasksPut ts s body).2 = l₁ ++ { t with status := body.field "status" } :: l₂) ∧
      ((body.field "status").truthy = false → (tasksPut ts s body).2 = ts)) := by
  refine ⟨?_, ?_, ?_⟩
  · intro ps s id body hs hid
    rw [peoplePut_present hs hid body]
    refine ⟨rfl, ?_, ?_⟩
    · intro ht
      simp only [ht, if_true]
      exact modifyFirst_of_mem Person.id _ hid
    · intro hf
      simp [hf]
  · intro ps s id body hs hid
    rw [projectsPut_present hs.1 hid body]
    refine ⟨rfl, ?_, ?_⟩
    · intro ht
      simp only [ht, if_true]
      exact modifyFirst_of_mem Project.id _ hid
    · intro hf
      simp [hf]
  · intro ts s id body hs hid
    rw [tasksPut_present hs.1 hid body]
    refine ⟨rfl, ?_, ?_⟩
    · intro ht
      simp only [ht, if_true]
      exact modifyFirst_of_mem Task.id _ hid
    · intro hf
      simp [hf]

/-- Instance of C12 as amended: `PUT .../1` with `leadBody` (truthy role, name and
status) on the seeded collections. -/
theorem update_sets_truthy_value_witness :
    (PathDenotes "1" 1 ∧ (1 : Int) ∈ people.map Person.id ∧
      (leadBody.field "role").truthy = true ∧
      (peoplePut people "1" leadBody).1.status = 200 ∧
      ∃ l₁ p l₂, people = l₁ ++ p :: l₂ ∧ p.id = 1 ∧ (∀ q ∈ l₁, q.id ≠ 1) ∧
        (peoplePut people "1" leadBody).2 =
          l₁ ++ { p with role := leadBody.field "role" } :: l₂) ∧
    (PathDenotes "1" 1 ∧ (1 : Int) ∈ projects.map Project.id ∧
      (leadBody.field "name").truthy = true ∧
      (projectsPut projects "1" leadBody).1.status = 200 ∧
      ∃ l₁ p l₂, projects = l₁ ++ p :: l₂ ∧ p.id = 1 ∧ (∀ q ∈ l₁, q.id ≠ 1) ∧
        (projectsPut projects "1" leadBody).2 =
          l₁ ++ { p with name := leadBody.field "name" } :: l₂) ∧
    (PathDenotes "1" 1 ∧ (1 : Int) ∈ tasks.map Task.id ∧
      (leadBody.field "status").truthy = true ∧
      (tasksPut tasks "1" leadBody).1.status = 200 ∧
      ∃ l₁ t l₂, tasks = l₁ ++ t :: l₂ ∧ t.id = 1 ∧ (∀ q ∈ l₁, q.id ≠ 1) ∧
        (tasksPut tasks "1" leadBody).2 =
          l₁ ++ { t with status := leadBody.field "status" } :: l₂) :=
  ⟨⟨pathDenotes_one, by decide, by decide,
      (update_sets_truthy_value.1 people "1" 1 leadBody pathDenotes_one (by decide)).1,
      (update_sets_truthy_value.1 people "1" 1 leadBody pathDenotes_one (by decide)).2.1
        (by decide)⟩,
    ⟨pathDenotes_one, by decide, by decide,
      (update_sets_truthy_value.2.1 projects "1" 1 leadBody pathDenotes_one (by decide)).1,
      (update_sets_truthy_value.2.1 projects "1" 1 leadBody pathDenotes_one (by decide)).2.1
        (by decide)⟩,
    ⟨pathDenotes_one, by decide, by decide,
      (update_sets_truthy_value.2.2 tasks "1" 1 leadBody pathDenotes_one (by decide)).1,
      (update_sets_truthy_value.2.2 tasks "1" 1 leadBody pathDenotes_one (by decide)).2.1
        (by decide)⟩⟩

/-- Claim C13. In any state of a collection, for an id present in it, an Update whose body
does not contain the designated field is answered 200 and leaves the whole collection
unchanged. `PUT /projects/1` with the empty body on the seeded projects is the instance
given last. -/
theorem update_without_field_changes_nothing :
    (∀ (ps : List Person) (s : String) (id : Int) (body : Body), PathDenotes s id →
      id ∈ ps.map Person.id → body.lookup "role" = none →
      (peoplePut ps s body).1.status = 200 ∧ (peoplePut ps s body).2 = ps) ∧
    (∀ (ps : List Project) (s : String) (id : Int) (body : Body), PathDenotes s id →
      id ∈ ps.map Project.id → body.lookup "name" = none →
      (projectsPut ps s body).1.status = 200 ∧ (projectsPut ps s body).2 = ps) ∧
    (∀ (ts : List Task) (s : String) (id : Int) (body : Body), PathDenotes s id →
      id ∈ ts.map Task.id → body.lookup "status" = none →
      (tasksPut ts s body).1.status = 200 ∧ (tasksPut ts s body).2 = ts) ∧
    ((projectsPut projects "1" []).1.status = 200 ∧
      (projectsPut projects "1" []).2 = projects) := by
  refine ⟨?_, ?_, ?_, ⟨by decide, rfl⟩⟩
  · intro ps s id body hs hid hb
    rw [peoplePut_present hs hid body, (Body.field_absent hb).2]
    exact ⟨rfl, rfl⟩
  · intro ps s id body hs hid hb
    rw [projectsPut_present hs.1 hid body, (Body.field_absent hb).2]
    exact ⟨rfl, rfl⟩
  · intro ts s id body hs hid hb
    rw [tasksPut_present hs.1 hid body, (Body.field_absent hb).2]
    exact ⟨rfl, rfl⟩

/-- Instance of C13: `PUT .../1` with the empty body on the seeded collections. -/
theorem update_without_field_changes_nothing_witness :
    (PathDenotes "1" 1 ∧ (1 : Int) ∈ people.map Person.id ∧
      List.lookup "role" ([] : Body) = none ∧
      (peoplePut people "1" []).1.status = 200 ∧ (peoplePut people "1" []).2 = people) ∧
    (PathDenotes "1" 1 ∧ (1 : Int) ∈ projects.map Project.id ∧
      List.lookup "name" ([] : Body) = none ∧
      (projectsPut projects "1" []).1.status = 200 ∧
      (projectsPut projects "1" []).2 = projects) ∧
    (PathDenotes "1" 1 ∧ (1 : Int) ∈ tasks.map Task.id ∧
      List.lookup "status" ([] : Body) = none ∧
      (tasksPut tasks "1" []).1.status = 200 ∧ (tasksPut tasks "1" []).2 = tasks) :=
  ⟨⟨pathDenotes_one, by decide, rfl,
      update_without_field_changes_nothing.1 people "1" 1 [] pathDenotes_one (by decide) rfl⟩,
    ⟨pathDenotes_one, by decide, rfl,
      update_without_field_changes_nothing.2.1 projects "1" 1 [] pathDenotes_one (by decide)
        rfl⟩,
    ⟨pathDenotes_one, by decide, rfl,
      update_without_field_changes_nothing.2.2.1 tasks "1" 1 [] pathDenotes_one (by decide)
        rfl⟩⟩

/-- Claim C14. The three stores are independent: whatever the state and the request, the
two collections the request's path does not name are unchanged, and the response and the
new value of the named collection are the same in any two states that agree on the named
collection. Proved of the fifteen handlers as they run on the whole module state. -/
theorem stores_are_independent :
    (∀ (st : Store) (r : Request),
      (handle st (.people r)).2.projects = st.projects ∧
      (handle st (.people r)).2.tasks = st.tasks) ∧
    (∀ (st : Store) (r : Request),
      (handle st (.projects r)).2.people = st.people ∧
      (handle st (.projects r)).2.tasks = st.tasks) ∧
    (∀ (st : Store) (r : Request),
      (handle st (.tasks r)).2.people = st.people ∧
      (handle st (.tasks r)).2.projects = st.projects) ∧
    (∀ (st st' : Store) (r : Request), st.people = st'.people →
      (handle st (.people r)).1 = (handle st' (.people r)).1 ∧
      (handle st (.people r)).2.people = (handle st' (.people r)).2.people) ∧
    (∀ (st st' : Store) (r : Request), st.projects = st'.projects →
      (handle st (.projects r)).1 = (handle st' (.projects r)).1 ∧
      (handle st (.projects r)).2.projects = (handle st' (.projects r)).2.projects) ∧
    (∀ (st st' : Store) (r : Request), st.tasks = st'.tasks →
      (handle st (.tasks r)).1 = (handle st' (.tasks r)).1 ∧
      (handle st (.tasks r)).2.tasks = (handle st' (.tasks r)).2.tasks) := by
  refine ⟨?_, ?_, ?_, ?_, ?_, ?_⟩
  · intro st r
    rw [handle_people]
    exact ⟨rfl, rfl⟩
  · intro st r
    rw [handle_projects]
    exact ⟨rfl, rfl⟩
  · intro st r
    rw [handle_tasks]
    exact ⟨rfl, rfl⟩
  · intro st st' r h
    rw [handle_people, handle_people, h]
    exact ⟨rfl, rfl⟩
  · intro st st' r h
    rw [handle_projects, handle_projects, h]
    exact ⟨rfl, rfl⟩
  · intro st st' r h
    rw [handle_tasks, handle_tasks, h]
    exact ⟨rfl, rfl⟩

/-- Instance of C14: creating a task for project 7 gives the same response and tasks
whether the projects are the seeded ones or none, and deleting project 1, which the seeded
task refers to, leaves people and tasks as they were. -/
theorem stores_are_independent_witness :
    (Store.seed.tasks = noProjectsStore.tasks ∧
      (handle Store.seed (.tasks (.post plainTaskBody))).1 =
        (handle noProjectsStore (.tasks (.post plainTaskBody))).1 ∧
      (handle Store.seed (.tasks (.post plainTaskBody))).2.tasks =
        (handle noProjectsStore (.tasks (.post plainTaskBody))).2.tasks) ∧
    ((handle Store.seed (.projects (.delete "1"))).2.people = Store.seed.people ∧
      (handle Store.seed (.projects (.delete "1"))).2.tasks = Store.seed.tasks) :=
  ⟨⟨rfl, stores_are_independent.2.2.2.2.2 Store.seed noProjectsStore
      (.post plainTaskBody) rfl⟩,
    stores_are_independent.2.1 Store.seed (.delete "1")⟩

/-- Claim C15. In any state of a collection, List is answered 200 with the whole
collection, every record in stored order; Get of an id present in the collection is
answered 200 with a record of the collection whose id is that id; and neither List nor
Get (whatever the path) changes the collection. -/
theorem list_and_get_read_the_collection :
    (∀ (ps : List Person),
      peopleGetAll ps = (⟨200, JSValue.array (ps.map Person.toJSON)⟩, ps)) ∧
    (∀ (ps : List Person) (s : String), (peopleGet ps s).2 = ps) ∧
    (∀ (ps : List Person) (s : String) (id : Int), PathDenotes s id →
      id ∈ ps.map Person.id →
      ∃ p ∈ ps, p.id = id ∧ (peopleGet ps s).1 = ⟨200, p.toJSON⟩) ∧
    (∀ (ps : List Project),
      projectsGetAll ps = (⟨200, JSValue.array (ps.map Project.toJSON)⟩, ps)) ∧
    (∀ (ps : List Project) (s : String), (projectsGet ps s).2 = ps) ∧
    (∀ (ps : List Project) (s : String) (id : Int), PathDenotes s id →
      id ∈ ps.map Project.id →
      ∃ p ∈ ps, p.id = id ∧ (projectsGet ps s).1 = ⟨200, p.toJSON⟩) ∧
    (∀ (ts : List Task),
      tasksGetAll ts = (⟨200, JSValue.array (ts.map Task.toJSON)⟩, ts)) ∧
    (∀ (ts : List Task) (s : String), (tasksGet ts s).2 = ts) ∧
    (∀ (ts : List Task) (s : String) (id : Int), PathDenotes s id →
      id ∈ ts.map Task.id →
      ∃ t ∈ ts, t.id = id ∧ (tasksGet ts s).1 = ⟨200, t.toJSON⟩) := by
  refine ⟨fun _ => rfl, peopleGet_snd, ?_, fun _ => rfl, projectsGet_snd, ?_, fun _ => rfl,
    tasksGet_snd, ?_⟩
  · intro ps s id hs hid
    obtain ⟨p, hp, hpid, hget⟩ := peopleGet_present hs hid
    exact ⟨p, hp, hpid, by rw [hget]⟩
  · intro ps s id hs hid
    obtain ⟨p, hp, hpid, hget⟩ := projectsGet_present hs.1 hid
    exact ⟨p, hp, hpid, by rw [hget]⟩
  · intro ts s id hs hid
    obtain ⟨t, ht, htid, hget⟩ := tasksGet_present hs.1 hid
    exact ⟨t, ht, htid, by rw [hget]⟩

/-- Instance of C15: Get of id 1 on the seeded collections. -/
theorem list_and_get_read_the_collection_witness :
    (PathDenotes "1" 1 ∧ (1 : Int) ∈ people.map Person.id ∧
      ∃ p ∈ people, p.id = 1 ∧ (peopleGet people "1").1 = ⟨200, p.toJSON⟩) ∧
    (PathDenotes "1" 1 ∧ (1 : Int) ∈ projects.map Project.id ∧
      ∃ p ∈ projects, p.id = 1 ∧ (projectsGet projects "1").1 = ⟨200, p.toJSON⟩) ∧
    (PathDenotes "1" 1 ∧ (1 : Int) ∈ tasks.map Task.id ∧
      ∃ t ∈ tasks, t.id = 1 ∧ (tasksGet tasks "1").1 = ⟨200, t.toJSON⟩) :=
  ⟨⟨pathDenotes_one, by decide,
      list_and_get_read_the_collection.2.2.1 people "1" 1 pathDenotes_one (by decide)⟩,
    ⟨pathDenotes_one, by decide,
      list_and_get_read_the_collection.2.2.2.2.2.1 projects "1" 1 pathDenotes_one
        (by decide)⟩,
    ⟨pathDenotes_one, by decide,
      list_and_get_read_the_collection.2.2.2.2.2.2.2.2 tasks "1" 1 pathDenotes_one
        (by decide)⟩⟩

/-- Claim C16. For every run of requests from the seeded state of a collection: if the
state the run ends in has last record `x`, the next request is a Delete that removes `x`
(leaving `init`), and the request after it is a valid create, then the id of the record
that create appends was held by some record at an earlier point of the run. Stated for
people, projects and tasks. -/
theorem id_after_deleting_last_is_reused :
    (∀ (reqs : List Request) (s : String) (body : Body) (init : List Person) (x : Person),
      runFrom peopleHandle people reqs = init ++ [x] →
      (peopleHandle (init ++ [x]) (.delete s)).2 = init →
      body.hasAll ["name", "email", "role"] →
      ∃ r : Person, (peopleHandle init (.post body)).2 = init ++ [r] ∧
        HeldDuring peopleHandle Person.id people reqs r.id) ∧
    (∀ (reqs : List Request) (s : String) (body : Body) (init : List Project) (x : Project),
      runFrom projectsHandle projects reqs = init ++ [x] →
      (projectsHandle (init ++ [x]) (.delete s)).2 = init →
      body.hasAll ["name", "description"] →
      ∃ r : Project, (projectsHandle init (.post body)).2 = init ++ [r] ∧
        HeldDuring projectsHandle Project.id projects reqs r.id) ∧
    (∀ (reqs : List Request) (s : String) (body : Body) (init : List Task) (x : Task),
      runFrom tasksHandle tasks reqs = init ++ [x] →
      (tasksHandle (init ++ [x]) (.delete s)).2 = init →
      body.hasAll ["title", "description", "projectId"] →
      ∃ r : Task, (tasksHandle init (.post body)).2 = init ++ [r] ∧
        HeldDuring tasksHandle Task.id tasks reqs r.id) := by
  refine ⟨?_, ?_, ?_⟩
  · intro reqs s body init x hrun _ hb
    refine ⟨_, by show (peoplePost init body).2 = _; rw [peoplePost_valid init hb], ?_⟩
    exact heldDuring_nextId_after_removing_last peopleHandle Person.id seed_people_gapless
      peopleHandle_ids (fun _ h => h.people_ids_ascending) hrun
  · intro reqs s body init x hrun _ hb
    refine ⟨_, by show (projectsPost init body).2 = _; rw [projectsPost_valid init hb], ?_⟩
    exact heldDuring_nextId_after_removing_last projectsHandle Project.id
      seed_projects_gapless projectsHandle_ids (fun _ h => h.projects_ids_ascending) hrun
  · intro reqs s body init x hrun _ hb
    refine ⟨_, by show (tasksPost init body).2 = _; rw [tasksPost_valid init hb], ?_⟩
    exact heldDuring_nextId_after_removing_last tasksHandle Task.id seed_tasks_gapless
      tasksHandle_ids (fun _ h => h.tasks_ids_ascending) hrun

/-- Instance of C16: on people, after creating Ann and deleting person 2 the list holds
ids 1 and 3; deleting 3 and creating again gives id 2, held by the seeded person 2. On
projects and tasks, deleting the seeded record and creating again gives id 1. -/
theorem id_after_deleting_last_is_reused_witness :
    (runFrom peopleHandle people annThenDeleteTwo = jamesOnly ++ [annThird] ∧
      (peopleHandle (jamesOnly ++ [annThird]) (.delete "3")).2 = jamesOnly ∧
      annBody.hasAll ["name", "email", "role"] ∧
      ∃ r : Person, (peopleHandle jamesOnly (.post annBody)).2 = jamesOnly ++ [r] ∧
        HeldDuring peopleHandle Person.id people annThenDeleteTwo r.id) ∧
    (runFrom projectsHandle projects [] = [] ++ projects ∧
      (projectsHandle ([] ++ projects) (.delete "1")).2 = [] ∧
      webBody.hasAll ["name", "description"] ∧
      ∃ r : Project, (projectsHandle [] (.post webBody)).2 = [] ++ [r] ∧
        HeldDuring projectsHandle Project.id projects [] r.id) ∧
    (runFrom tasksHandle tasks [] = [] ++ tasks ∧
      (tasksHandle ([] ++ tasks) (.delete "1")).2 = [] ∧
      doneBody.hasAll ["title", "description", "projectId"] ∧
      ∃ r : Task, (tasksHandle [] (.post doneBody)).2 = [] ++ [r] ∧
        HeldDuring tasksHandle Task.id tasks [] r.id) :=
  ⟨⟨rfl, rfl, by decide,
      id_after_deleting_last_is_reused.1 annThenDeleteTwo "3" annBody jamesOnly annThird rfl
        rfl (by decide)⟩,
    ⟨rfl, rfl, by decide,
      id_after_deleting_last_is_reused.2.1 [] "1" webBody [] _ rfl rfl (by decide)⟩,
    ⟨rfl, rfl, by decide,
      id_after_deleting_last_is_reused.2.2 [] "1" doneBody [] _ rfl rfl (by decide)⟩⟩

/-- Claim C17 fails on the code. On the seeded people and the path `1abc`, GET and PUT
answer 404 (`ToNumber` gives `NaN`) while DELETE answers 200 and removes person 1
(`parseInt` gives 1); on the path `0b1`, GET and PUT answer 200 (`ToNumber` gives 1) while
DELETE answers 404 (`parseInt` gives 0). -/
theorem people_handlers_disagree_on_absence :
    ((peopleGet people "1abc").1.status = 404 ∧
      (peoplePut people "1abc" leadBody).1.status = 404 ∧
      (peopleDelete people "1abc").1.status = 200 ∧
      (peopleDelete people "1abc").2.map Person.id = [2]) ∧
    ((peopleGet people "0b1").1.status = 200 ∧
      (peoplePut people "0b1" leadBody).1.status = 200 ∧
      (peopleDelete people "0b1").1.status = 404 ∧
      (peopleDelete people "0b1").2.map Person.id = [1, 2]) := by
  have h1 : toNumber "1abc" = JSNumber.nan := by decide
  have h2 : toNumber "0b1" = JSNumber.finite 1 := by
    have h := @toNumber_of_value "0b1" 1
      (by simp [trimWhiteSpace, stringNumericValue, parseNonDecimal, isStrWhiteSpaceChar,
        isRadixDigit, digitValue, radixValue])
      (by norm_num)
    simpa using h
  refine ⟨⟨?_, ?_, by decide, by decide⟩, ⟨?_, ?_, by decide, by decide⟩⟩
  · simp [peopleGet, people, looseEq, h1]
  · simp [peoplePut, people, looseEq, h1]
  · simp [peopleGet, people, looseEq, h2]
  · simp [peoplePut, people, looseEq, h2]

/-- Claim C18. In every state of a collection reachable from its seeded state, the ids
are positive and strictly increasing in stored order, so the last record holds the
greatest id and the id after the last one is the greatest id plus one. Stated for people,
projects and tasks. -/
theorem reachable_ids_positive_increasing :
    (∀ ps : List Person, Reachable peopleHandle people ps →
      (ps.map Person.id).Pairwise (· < ·) ∧ (∀ p ∈ ps, 0 < p.id) ∧
      (∀ last, ps.getLast? = some last → ∀ p ∈ ps, p.id ≤ last.id) ∧
      nextId Person.id ps = maxIdPlusOne (ps.map Person.id)) ∧
    (∀ ps : List Project, Reachable projectsHandle projects ps →
      (ps.map Project.id).Pairwise (· < ·) ∧ (∀ p ∈ ps, 0 < p.id) ∧
      (∀ last, ps.getLast? = some last → ∀ p ∈ ps, p.id ≤ last.id) ∧
      nextId Project.id ps = maxIdPlusOne (ps.map Project.id)) ∧
    (∀ ts : List Task, Reachable tasksHandle tasks ts →
      (ts.map Task.id).Pairwise (· < ·) ∧ (∀ t ∈ ts, 0 < t.id) ∧
      (∀ last, ts.getLast? = some last → ∀ t ∈ ts, t.id ≤ last.id) ∧
      nextId Task.id ts = maxIdPlusOne (ts.map Task.id)) := by
  refine ⟨?_, ?_, ?_⟩
  · intro ps h
    have ha := h.people_ids_ascending
    exact ⟨ha.1, ha.2, fun last hl => key_le_getLast Person.id ha.1 hl,
      nextId_eq_maxIdPlusOne Person.id ha⟩
  · intro ps h
    have ha := h.projects_ids_ascending
    exact ⟨ha.1, ha.2, fun last hl => key_le_getLast Project.id ha.1 hl,
      nextId_eq_maxIdPlusOne Project.id ha⟩
  · intro ts h
    have ha := h.tasks_ids_ascending
    exact ⟨ha.1, ha.2, fun last hl => key_le_getLast Task.id ha.1 hl,
      nextId_eq_maxIdPlusOne Task.id ha⟩

/-- Instance of C18: the states reached by creating a record and then deleting the
record with id 2 (people) or id 1 (projects, tasks). -/
theorem reachable_ids_positive_increasing_witness :
    (Reachable peopleHandle people (runFrom peopleHandle people annThenDeleteTwo) ∧
      ((runFrom peopleHandle people annThenDeleteTwo).map Person.id).Pairwise (· < ·) ∧
      (∀ p ∈ runFrom peopleHandle people annThenDeleteTwo, 0 < p.id) ∧
      (∀ last, (runFrom peopleHandle people annThenDeleteTwo).getLast? = some last →
        ∀ p ∈ runFrom peopleHandle people annThenDeleteTwo, p.id ≤ last.id) ∧
      nextId Person.id (runFrom peopleHandle people annThenDeleteTwo) =
        maxIdPlusOne ((runFrom peopleHandle people annThenDeleteTwo).map Person.id)) ∧
    (Reachable projectsHandle projects
        (runFrom projectsHandle projects [.post webBody, .delete "1"]) ∧
      ((runFrom projectsHandle projects [.post webBody, .delete "1"]).map
        Project.id).Pairwise (· < ·) ∧
      (∀ p ∈ runFrom projectsHandle projects [.post webBody, .delete "1"], 0 < p.id) ∧
      (∀ last,
        (runFrom projectsHandle projects [.post webBody, .delete "1"]).getLast? = some last →
        ∀ p ∈ runFrom projectsHandle projects [.post webBody, .delete "1"],
          p.id ≤ last.id) ∧
      nextId Project.id (runFrom projectsHandle projects [.post webBody, .delete "1"]) =
        maxIdPlusOne
          ((runFrom projectsHandle projects [.post webBody, .delete "1"]).map Project.id)) ∧
    (Reachable tasksHandle tasks (runFrom tasksHandle tasks [.post doneBody, .delete "1"]) ∧
      ((runFrom tasksHandle tasks [.post doneBody, .delete "1"]).map Task.id).Pairwise
        (· < ·) ∧
      (∀ t ∈ runFrom tasksHandle tasks [.post doneBody, .delete "1"], 0 < t.id) ∧
      (∀ last, (runFrom tasksHandle tasks [.post doneBody, .delete "1"]).getLast? = some last →
        ∀ t ∈ runFrom tasksHandle tasks [.post doneBody, .delete "1"], t.id ≤ last.id) ∧
      nextId Task.id (runFrom tasksHandle tasks [.post doneBody, .delete "1"]) =
        maxIdPlusOne ((runFrom tasksHandle tasks [.post doneBody, .delete "1"]).map Task.id)) :=
  ⟨⟨reachable_runFrom _ _ _,
      reachable_ids_positive_increasing.1 _ (reachable_runFrom _ _ _)⟩,
    ⟨reachable_runFrom _ _ _,
      reachable_ids_positive_increasing.2.1 _ (reachable_runFrom _ _ _)⟩,
    ⟨reachable_runFrom _ _ _,
      reachable_ids_positive_increasing.2.2 _ (reachable_runFrom _ _ _)⟩⟩

end Semana14
